import Mathlib

/-!
# Verification of the rdrview readability engine against its specification

Shallow embedding of the rdrview extraction engine (C sources: readability.c,
prep_article.c, content.c, iterator.c, regex.c, readerable.c found in the
repository).  Modelling conventions:

* DOM trees are the inductive `HNode` (element / text / comment); libxml2
  `xmlChar *` strings are Lean `String`s (text nodes hold already-unescaped
  text, as the external parser produces them).
* C `double` scores are modelled as exact rationals `ℚ`; the engine only
  adds, divides by constants and compares, and every concrete value used in a
  theorem below is exactly representable, so no rounding behaviour is lost
  that any claim depends on.  The readerable check's `sqrt` is modelled with
  `Real.sqrt`.
* Per-node annotations (score, flags) live in explicit `NodeInfo` records
  threaded through the functions that the C code reaches through the
  `_private` pointer.
* Process-global state (the metadata record, the byline latch, the metadata
  priority ranks, the option flags) is threaded explicitly as state values.
* POSIX-extended ICASE regexes compiled in regex.c are alternations of
  literals (some with `^`/`$`/space anchors); `regexec` reports whether a
  match exists anywhere in the string, which for these patterns is exactly
  case-insensitive substring search with the anchors spelt out; they are
  embedded as executable matchers of that form.
* The node-information helpers of node.c are staged inside sandbox.c
  (under the header "Functions to obtain or save information about an HTML
  node") and are translated from there.
-/

namespace Rdrview

/-- A DOM node: an element with a lowercase tag, ordered attributes and
ordered children, a text node, or a comment node. -/
inductive HNode where
  | elem (tag : String) (attrs : List (String × String)) (children : List HNode)
  | text (s : String)
  | comm (s : String)
deriving Repr

/-- Children of a node (text and comment nodes have none). -/
def childrenOf : HNode → List HNode
  | .elem _ _ cs => cs
  | _ => []

/-- Is this an element node? -/
def isElemN : HNode → Bool
  | .elem _ _ _ => true
  | _ => false

/-- Is this a text node (`xmlNodeIsText`)? -/
def isTextN : HNode → Bool
  | .text _ => true
  | _ => false

/-- ASCII lowercasing of one character: REG_ICASE and `strcasecmp` in the C
locale fold ASCII letters only. -/
def lowerChar (c : Char) : Char :=
  if 'A' ≤ c && c ≤ 'Z' then Char.ofNat (c.toNat + 32) else c

/-- ASCII lowercasing of a character list. -/
def lowerL (l : List Char) : List Char :=
  l.map lowerChar

/-- `node_has_tag` / `node_has_tag_array` (node.c, staged in sandbox.c):
the node is an element whose name equals one of the given (lowercase) tag
literals under `xmlStrcasecmp`, i.e. ASCII-case-insensitively. -/
def node_has_tag (n : HNode) (tags : List String) : Bool :=
  match n with
  | .elem t _ _ => tags.any (fun tag => lowerL t.toList == lowerL tag.toList)
  | _ => false

/-- `node_has_tag` applied through a possibly-NULL node pointer. -/
def node_has_tagO (n : Option HNode) (tags : List String) : Bool :=
  match n with
  | some m => node_has_tag m tags
  | none => false

/-- `xmlGetProp`: the value of the first attribute with the given name. -/
def getProp (n : HNode) (name : String) : Option String :=
  match n with
  | .elem _ attrs _ => (attrs.find? (fun p => p.1 == name)).map (·.2)
  | _ => none

/-- `xmlHasProp` as a boolean. -/
def hasProp (n : HNode) (name : String) : Bool :=
  (getProp n name).isSome

/-- `xmlSetProp`: replace the value of an existing attribute, else append it. -/
def setPropList (attrs : List (String × String)) (name v : String) :
    List (String × String) :=
  if attrs.any (fun p => p.1 == name) then
    attrs.map (fun p => if p.1 == name then (p.1, v) else p)
  else attrs ++ [(name, v)]

/-- `xmlSetProp` on a node (no-op on non-elements, which the C never does). -/
def setProp (n : HNode) (name v : String) : HNode :=
  match n with
  | .elem t attrs cs => .elem t (setPropList attrs name v) cs
  | other => other

/-- `xmlUnsetProp`: drop the attribute. -/
def unsetProp (n : HNode) (name : String) : HNode :=
  match n with
  | .elem t attrs cs => .elem t (attrs.filter (fun p => !(p.1 == name))) cs
  | other => other

/-! ## content.c: text utilities -/

/-- C-locale `isspace` on a character (the six ASCII whitespace bytes). -/
def isSpaceC (c : Char) : Bool :=
  c == ' ' || c == '\t' || c == '\n' || c == '\x0b' || c == '\x0c' || c == '\r'

/-- A byte that `strcpy_normalize` collapses: ASCII whitespace or U+00A0. -/
def isCollapsible (c : Char) : Bool :=
  isSpaceC c || c == '\u00A0'

theorem dropWhile_length_le {α : Type} (p : α → Bool) (l : List α) :
    (l.dropWhile p).length ≤ l.length := by
  induction l with
  | nil => simp
  | cons c cs ih =>
    rw [List.dropWhile_cons]
    split
    · simp only [List.length_cons]; omega
    · simp

/-- The worker for `strcpy_normalize` (content.c), as a one-pass automaton:
`pending` records a whitespace/nbsp run whose single collapsed `' '` has not
been emitted yet.  A zero-width space is dropped, and when it directly ends a
whitespace run it also cancels the collapsed space — exactly what the C
pointer dance (`--dest` after the run) does. -/
def normCore : Bool → List Char → List Char
  | pending, [] => if pending then [' '] else []
  | pending, c :: rest =>
    if isCollapsible c then normCore true rest
    else if c == '\u200B' then normCore false rest
    else if pending then ' ' :: c :: normCore false rest
    else c :: normCore false rest

/-- `strcpy_normalize` (content.c) over a character list: collapse every run
of ASCII whitespace and non-breaking spaces into a single `' '`, drop
zero-width spaces (cancelling a directly preceding collapsed space). -/
def normChars (l : List Char) : List Char :=
  normCore false l

/-- String form of `strcpy_normalize`. -/
def normalizeStr (s : String) : String :=
  ⟨normChars s.toList⟩

mutual

/-- `xmlNodeGetContent`: the concatenated text content of the subtree. -/
def contentOf : HNode → String
  | .elem _ _ cs => contentOfList cs
  | .text s => s
  | .comm _ => ""

/-- `xmlNodeGetContent` over a list of children. -/
def contentOfList : List HNode → String
  | [] => ""
  | c :: cs => contentOf c ++ contentOfList cs

end

/-- `node_get_normalized_content` (content.c). -/
def node_get_normalized_content (n : HNode) : String :=
  normalizeStr (contentOf n)

/-- `xmlUTF8Strlen`: length in code points. -/
def utf8len (s : String) : Nat :=
  s.toList.length

/-- `text_normalized_content_length` (content.c): code-point length of the
normalized content, not counting a leading or trailing collapsed space. -/
def text_normalized_content_length (n : HNode) : Nat :=
  let cs := normChars (contentOf n).toList
  if cs.length = 0 then 0
  else
    let l1 := if cs.head? == some ' ' then cs.length - 1 else cs.length
    if 2 ≤ cs.length && cs.getLast? == some ' ' then l1 - 1 else l1

/-- UTF-8 byte count of one character. -/
def charByteLen (c : Char) : Nat :=
  if c.toNat < 0x80 then 1
  else if c.toNat < 0x800 then 2
  else if c.toNat < 0x10000 then 3
  else 4

/-- `text_content_length` (content.c): byte length of the raw content with
leading and trailing ASCII whitespace not counted (no collapsing). -/
def text_content_length (n : HNode) : Nat :=
  let cs := (contentOf n).toList.dropWhile isSpaceC
  let cs2 := (cs.reverse.dropWhile isSpaceC).reverse
  (cs2.map charByteLen).sum

/-- `char_count` (content.c): occurrences of a character in a string. -/
def char_count (s : String) (c : Char) : Nat :=
  s.toList.count c

/-- `length_if_link`: normalized content length for `<a>` elements, else 0. -/
def length_if_link (n : HNode) : Nat :=
  if node_has_tag n ["a"] then text_normalized_content_length n else 0

mutual

/-- `total_for_descendants .. length_if_link`: summed over every strict
descendant. -/
def sumLinkLen : List HNode → Nat
  | [] => 0
  | c :: cs => linkContrib c + sumLinkLen cs

/-- One node's contribution (itself plus its descendants) to `sumLinkLen`. -/
def linkContrib : HNode → Nat
  | .text _ => 0
  | .comm _ => 0
  | .elem t a cs => length_if_link (.elem t a cs) + sumLinkLen cs

end

/-- `get_link_density` (content.c): text inside descendant links divided by
the node's own normalized text length; 0 when the node has no text. -/
def get_link_density (n : HNode) : ℚ :=
  let textlen := text_normalized_content_length n
  if textlen = 0 then 0
  else (sumLinkLen (childrenOf n) : ℚ) / (textlen : ℚ)

/-! ## readability.c: the grab_article retry loop (claim C2) -/

/-- The three option flags that `needs_one_more_try` may clear (the other
bits of `options.flags` never change during extraction). -/
structure GrabFlags where
  stripUnlikely : Bool
  weightClasses : Bool
  cleanConditionally : Bool
deriving Repr, DecidableEq

/-- All three flags set: the default configuration (`parse_arguments`). -/
def defaultGrabFlags : GrabFlags := ⟨true, true, true⟩

/-- The flag weakening in `needs_one_more_try`: clear the first still-set
flag, in the order strip-unlikely, weight-classes, clean-conditionally;
`none` once all three are clear. -/
def clearOneFlag (f : GrabFlags) : Option GrabFlags :=
  if f.stripUnlikely then some { f with stripUnlikely := false }
  else if f.weightClasses then some { f with weightClasses := false }
  else if f.cleanConditionally then some { f with cleanConditionally := false }
  else none

/-- Number of set flags. -/
def flagCount (f : GrabFlags) : Nat :=
  (if f.stripUnlikely then 1 else 0) + (if f.weightClasses then 1 else 0) +
    (if f.cleanConditionally then 1 else 0)

theorem clearOneFlag_count {f f2 : GrabFlags} (h : clearOneFlag f = some f2) :
    flagCount f2 < flagCount f := by
  cases f with
  | mk a b c =>
    cases f2 with
    | mk x y z =>
      cases a <;> cases b <;> cases c <;> cases x <;> cases y <;> cases z <;>
        revert h <;> decide

/-- `DEFAULT_CHAR_THRESHOLD` (rdrview.h). -/
def DEFAULT_CHAR_THRESHOLD : Nat := 500

/-- The `do … while (needs_one_more_try(article))` loop of `grab_article`,
abstracted over the normalized length `A f` that grabbing and preparing a
fresh copy of the document produces under flag setting `f` (the loop copies
the document anew each round, so the length is a function of the flags
alone).  Returns the lengths saved by `save_attempt`, in order. -/
def grabLoop (A : GrabFlags → Nat) (f : GrabFlags) : List Nat :=
  let len := A f
  if DEFAULT_CHAR_THRESHOLD ≤ len then [len]
  else
    match h : clearOneFlag f with
    | some f2 => len :: grabLoop A f2
    | none => [len]
termination_by flagCount f
decreasing_by exact clearOneFlag_count h

/-- The scan of `get_best_attempt`: running best value over the remaining
slots (`if (slot->length <= best->length) continue; best = slot;`). -/
def bestVal : List Nat → Nat → Nat
  | [], bv => bv
  | x :: xs, bv => bestVal xs (if x ≤ bv then bv else x)

/-- `get_best_attempt` (readability.c): the greatest saved length, or `none`
when even the best attempt has length zero.  (The C scans exactly four static
slots; unused slots hold length 0 and `<=` keeps the earlier best, so they
never win unless everything is zero — scanning only the filled slots is the
same function.) -/
def get_best_attempt (saved : List Nat) : Option Nat :=
  match saved with
  | [] => none
  | x :: xs =>
    let bv := bestVal xs x
    if bv = 0 then none else some bv

/-- The sequence of flag settings the retry loop walks through from the
default configuration. -/
def flagSeq : List GrabFlags :=
  [⟨true, true, true⟩, ⟨false, true, true⟩, ⟨false, false, true⟩,
    ⟨false, false, false⟩]

theorem bestVal_ge_init (xs : List Nat) (bv : Nat) : bv ≤ bestVal xs bv := by
  induction xs generalizing bv with
  | nil => simp [bestVal]
  | cons x xs ih =>
    simp only [bestVal]
    split
    · exact ih bv
    · exact le_trans (by omega) (ih x)

theorem bestVal_ge_mem {xs : List Nat} {y : Nat} (h : y ∈ xs) (bv : Nat) :
    y ≤ bestVal xs bv := by
  induction xs generalizing bv with
  | nil => cases h
  | cons x xs ih =>
    simp only [bestVal]
    rcases List.mem_cons.mp h with rfl | h2
    · split
      · exact le_trans (by omega) (bestVal_ge_init xs bv)
      · exact bestVal_ge_init xs y
    · split
      · exact ih h2 bv
      · exact ih h2 x

theorem bestVal_mem_or_init (xs : List Nat) (bv : Nat) :
    bestVal xs bv = bv ∨ bestVal xs bv ∈ xs := by
  induction xs generalizing bv with
  | nil => simp [bestVal]
  | cons x xs ih =>
    simp only [bestVal]
    split
    · rcases ih bv with h2 | h2
      · exact Or.inl h2
      · exact Or.inr (List.mem_cons_of_mem _ h2)
    · rcases ih x with h2 | h2
      · exact Or.inr (by rw [h2]; exact List.mem_cons_self _ _)
      · exact Or.inr (List.mem_cons_of_mem _ h2)


theorem get_best_attempt_none_iff (saved : List Nat) :
    get_best_attempt saved = none ↔ ∀ y ∈ saved, y = 0 := by
  cases saved with
  | nil => simp [get_best_attempt]
  | cons x xs =>
    simp only [get_best_attempt]
    constructor
    · intro h y hy
      split at h
      · rename_i hz
        have h1 := bestVal_ge_init xs x
        rcases List.mem_cons.mp hy with rfl | h2
        · omega
        · have := bestVal_ge_mem h2 x
          omega
      · exact absurd h (by simp)
    · intro h
      have hx : x = 0 := h x (List.mem_cons_self _ _)
      have hz : bestVal xs x = 0 := by
        rcases bestVal_mem_or_init xs x with h2 | h2
        · omega
        · exact h _ (List.mem_cons_of_mem _ h2)
      simp [hz]

theorem get_best_attempt_some {saved : List Nat} {v : Nat}
    (h : get_best_attempt saved = some v) :
    v ∈ saved ∧ ∀ y ∈ saved, y ≤ v := by
  cases saved with
  | nil => exact absurd h (by simp [get_best_attempt])
  | cons x xs =>
    simp only [get_best_attempt] at h
    split at h
    · exact absurd h (by simp)
    · have hv : bestVal xs x = v := by injection h
      subst hv
      refine ⟨?_, ?_⟩
      · rcases bestVal_mem_or_init xs x with h2 | h2
        · rw [h2]; exact List.mem_cons_self _ _
        · exact List.mem_cons_of_mem _ h2
      · intro y hy
        rcases List.mem_cons.mp hy with rfl | h2
        · exact bestVal_ge_init xs y
        · exact bestVal_ge_mem h2 x

theorem get_best_attempt_max {saved : List Nat} {y : Nat} (h1 : y ∈ saved)
    (h2 : ∀ z ∈ saved, z ≤ y) (h3 : 0 < y) :
    get_best_attempt saved = some y := by
  cases saved with
  | nil => cases h1
  | cons x xs =>
    simp only [get_best_attempt]
    have hup : bestVal xs x ≤ y := by
      rcases bestVal_mem_or_init xs x with h4 | h4
      · rw [h4]; exact h2 x (List.mem_cons_self _ _)
      · exact h2 _ (List.mem_cons_of_mem _ h4)
    have hlow : y ≤ bestVal xs x := by
      rcases List.mem_cons.mp h1 with rfl | h4
      · exact bestVal_ge_init xs y
      · exact bestVal_ge_mem h4 x
    have : bestVal xs x = y := le_antisymm hup hlow
    rw [this, if_neg (by omega)]

/-- The list of lengths saved over the whole retry run, starting from the
default configuration. -/
def savedOf (A : GrabFlags → Nat) : List Nat :=
  grabLoop A defaultGrabFlags

/-- C2: from the default configuration the retry loop saves one attempt per
round and accepts as soon as an attempt reaches 500; each retry clears one
flag in the order strip-unlikely, weight-classes, clean-conditionally; at
most four attempts are ever saved; the final result is the saved attempt of
greatest normalized length, or failure when every attempt has length zero. -/
theorem c2_retry_loop (A : GrabFlags → Nat) :
    (1 ≤ (savedOf A).length ∧ (savedOf A).length ≤ 4) ∧
    savedOf A = (flagSeq.map A).take (savedOf A).length ∧
    (∀ i, i + 1 < (savedOf A).length →
      (savedOf A).getD i 0 < DEFAULT_CHAR_THRESHOLD) ∧
    ((savedOf A).length < 4 →
      DEFAULT_CHAR_THRESHOLD ≤ (savedOf A).getD ((savedOf A).length - 1) 0) ∧
    (get_best_attempt (savedOf A) = none ↔ ∀ y ∈ savedOf A, y = 0) ∧
    (∀ v, get_best_attempt (savedOf A) = some v →
      v ∈ savedOf A ∧ ∀ y ∈ savedOf A, y ≤ v) ∧
    (DEFAULT_CHAR_THRESHOLD ≤ (savedOf A).getD ((savedOf A).length - 1) 0 →
      get_best_attempt (savedOf A) =
        some ((savedOf A).getD ((savedOf A).length - 1) 0)) := by
  have hacc : ∀ S : List Nat,
      (∀ i, i + 1 < S.length → S.getD i 0 < DEFAULT_CHAR_THRESHOLD) →
      DEFAULT_CHAR_THRESHOLD ≤ S.getD (S.length - 1) 0 →
      get_best_attempt S = some (S.getD (S.length - 1) 0) := by
    intro S hrest hlast
    apply get_best_attempt_max
    · have hne : S ≠ [] := by
        intro he
        rw [he] at hlast
        simp [DEFAULT_CHAR_THRESHOLD] at hlast
      have hlt : S.length - 1 < S.length := by
        have := List.length_pos.mpr hne
        omega
      rw [List.getD_eq_getElem _ _ hlt]
      exact List.getElem_mem _
    · intro z hz
      obtain ⟨j, hj, hje⟩ := List.mem_iff_getElem.mp hz
      by_cases hjl : j + 1 < S.length
      · have := hrest j hjl
        rw [List.getD_eq_getElem _ _ (by omega)] at this
        simp only [DEFAULT_CHAR_THRESHOLD] at this hlast
        omega
      · have hj2 : j = S.length - 1 := by omega
        subst hj2
        rw [List.getD_eq_getElem _ _ (by omega)]
        exact le_of_eq hje.symm
    · simp only [DEFAULT_CHAR_THRESHOLD] at hlast
      omega
  have hsaved : (500 ≤ A ⟨true, true, true⟩ ∧
      savedOf A = [A ⟨true, true, true⟩]) ∨
      (A ⟨true, true, true⟩ < 500 ∧ 500 ≤ A ⟨false, true, true⟩ ∧
        savedOf A = [A ⟨true, true, true⟩, A ⟨false, true, true⟩]) ∨
      (A ⟨true, true, true⟩ < 500 ∧ A ⟨false, true, true⟩ < 500 ∧
        500 ≤ A ⟨false, false, true⟩ ∧
        savedOf A = [A ⟨true, true, true⟩, A ⟨false, true, true⟩,
          A ⟨false, false, true⟩]) ∨
      (A ⟨true, true, true⟩ < 500 ∧ A ⟨false, true, true⟩ < 500 ∧
        A ⟨false, false, true⟩ < 500 ∧
        savedOf A = [A ⟨true, true, true⟩, A ⟨false, true, true⟩,
          A ⟨false, false, true⟩, A ⟨false, false, false⟩]) := by
    by_cases h0 : 500 ≤ A ⟨true, true, true⟩
    · left
      refine ⟨h0, ?_⟩
      simp [savedOf, grabLoop, defaultGrabFlags, DEFAULT_CHAR_THRESHOLD, h0]
    · by_cases h1 : 500 ≤ A ⟨false, true, true⟩
      · right; left
        refine ⟨by omega, h1, ?_⟩
        simp [savedOf, grabLoop, defaultGrabFlags, DEFAULT_CHAR_THRESHOLD,
          h0, h1, clearOneFlag]
      · by_cases h2 : 500 ≤ A ⟨false, false, true⟩
        · right; right; left
          refine ⟨by omega, by omega, h2, ?_⟩
          simp [savedOf, grabLoop, defaultGrabFlags, DEFAULT_CHAR_THRESHOLD,
            h0, h1, h2, clearOneFlag]
        · right; right; right
          refine ⟨by omega, by omega, by omega, ?_⟩
          simp [savedOf, grabLoop, defaultGrabFlags, DEFAULT_CHAR_THRESHOLD,
            h0, h1, h2, clearOneFlag]
  rcases hsaved with ⟨ha, h⟩ | ⟨ha, hb, h⟩ | ⟨ha, hb, hc, h⟩ | ⟨ha, hb, hc, h⟩
  · rw [h]
    have hrest : ∀ i, i + 1 < ([A ⟨true, true, true⟩] : List Nat).length →
        ([A ⟨true, true, true⟩] : List Nat).getD i 0 < DEFAULT_CHAR_THRESHOLD := by
      intro i hi
      simp at hi
    exact ⟨⟨by simp, by simp⟩, by simp [flagSeq], hrest,
      fun _ => by simpa [DEFAULT_CHAR_THRESHOLD] using ha,
      get_best_attempt_none_iff _, fun v hv => get_best_attempt_some hv,
      hacc _ hrest⟩
  · rw [h]
    have hrest : ∀ i,
        i + 1 < ([A ⟨true, true, true⟩, A ⟨false, true, true⟩] : List Nat).length →
        ([A ⟨true, true, true⟩, A ⟨false, true, true⟩] : List Nat).getD i 0 <
          DEFAULT_CHAR_THRESHOLD := by
      intro i hi
      simp only [List.length_cons, List.length_nil] at hi
      have h0 : i = 0 := by omega
      subst h0
      simpa [DEFAULT_CHAR_THRESHOLD] using ha
    exact ⟨⟨by simp, by simp⟩, by simp [flagSeq], hrest,
      fun _ => by simpa [DEFAULT_CHAR_THRESHOLD] using hb,
      get_best_attempt_none_iff _, fun v hv => get_best_attempt_some hv,
      hacc _ hrest⟩
  · rw [h]
    have hrest : ∀ i,
        i + 1 < ([A ⟨true, true, true⟩, A ⟨false, true, true⟩,
          A ⟨false, false, true⟩] : List Nat).length →
        ([A ⟨true, true, true⟩, A ⟨false, true, true⟩,
          A ⟨false, false, true⟩] : List Nat).getD i 0 < DEFAULT_CHAR_THRESHOLD := by
      intro i hi
      simp only [List.length_cons, List.length_nil] at hi
      rcases (by omega : i = 0 ∨ i = 1) with rfl | rfl
      · simpa [DEFAULT_CHAR_THRESHOLD] using ha
      · simpa [DEFAULT_CHAR_THRESHOLD] using hb
    exact ⟨⟨by simp, by simp⟩, by simp [flagSeq], hrest,
      fun _ => by simpa [DEFAULT_CHAR_THRESHOLD] using hc,
      get_best_attempt_none_iff _, fun v hv => get_best_attempt_some hv,
      hacc _ hrest⟩
  · rw [h]
    have hrest : ∀ i,
        i + 1 < ([A ⟨true, true, true⟩, A ⟨false, true, true⟩,
          A ⟨false, false, true⟩, A ⟨false, false, false⟩] : List Nat).length →
        ([A ⟨true, true, true⟩, A ⟨false, true, true⟩,
          A ⟨false, false, true⟩, A ⟨false, false, false⟩] : List Nat).getD i 0 <
          DEFAULT_CHAR_THRESHOLD := by
      intro i hi
      simp only [List.length_cons, List.length_nil] at hi
      rcases (by omega : i = 0 ∨ i = 1 ∨ i = 2) with rfl | rfl | rfl
      · simpa [DEFAULT_CHAR_THRESHOLD] using ha
      · simpa [DEFAULT_CHAR_THRESHOLD] using hb
      · simpa [DEFAULT_CHAR_THRESHOLD] using hc
    exact ⟨⟨by simp, by simp⟩, by simp [flagSeq], hrest,
      fun h4 => absurd h4 (by simp),
      get_best_attempt_none_iff _, fun v hv => get_best_attempt_some hv,
      hacc _ hrest⟩


/-! ## regex.c: the compiled patterns as executable matchers -/

/-- Substring search over character lists (`strstr` / the unanchored part of
a POSIX match). -/
def containsSubL (hay pat : List Char) : Bool :=
  hay.tails.any (fun t => pat.isPrefixOf t)

/-- Case-sensitive substring search on strings. -/
def containsSub (s pat : String) : Bool :=
  containsSubL s.toList pat.toList

/-- `xmlStrcasestr`: case-insensitive (ASCII) substring search. -/
def containsCI (s pat : String) : Bool :=
  containsSubL (lowerL s.toList) (lowerL pat.toList)

/-- The branches of `POSITIVE_RE` (regex.c), lowercase literals. -/
def positiveBranches : List String :=
  ["article", "body", "content", "entry", "hentry", "h-entry", "main",
   "page", "pagination", "post", "text", "blog", "story"]

/-- `regex_matches (&positive_re, s)`: false on NULL, else any branch occurs
as a (case-insensitive) substring. -/
def matchesPositive : Option String → Bool
  | none => false
  | some s => positiveBranches.any (fun b => containsSubL (lowerL s.toList) b.toList)

/-- The plain (unanchored) branches of `NEGATIVE_RE` (regex.c). -/
def negativePlainBranches : List String :=
  ["hidden", "banner", "combx", "comment", "com-", "contact", "foot",
   "footer", "footnote", "gdpr", "masthead", "media", "meta", "outbrain",
   "promo", "related", "scroll", "share", "shoutbox", "sidebar",
   "skyscraper", "sponsor", "shopping", "tags", "tool", "widget"]

/-- `regex_matches (&negative_re, s)`: the plain branches plus the anchored
`^hid$`, ` hid$`, ` hid `, `^hid ` alternatives. -/
def matchesNegative : Option String → Bool
  | none => false
  | some s =>
    let t := lowerL s.toList
    negativePlainBranches.any (fun b => containsSubL t b.toList) ||
      t == "hid".toList || " hid".toList.isSuffixOf t ||
      containsSubL t " hid ".toList || "hid ".toList.isPrefixOf t

/-- The branches of `UNLIKELY_RE` (regex.c). -/
def unlikelyBranches : List String :=
  ["-ad-", "ai2html", "banner", "breadcrumbs", "combx", "comment",
   "community", "cover-wrap", "disqus", "extra", "footer", "gdpr", "header",
   "legends", "menu", "related", "remark", "replies", "rss", "shoutbox",
   "sidebar", "skyscraper", "social", "sponsor", "supplemental", "ad-break",
   "agegate", "pagination", "pager", "popup", "yom-remote"]

/-- `regex_matches (&unlikely_re, s)`. -/
def matchesUnlikely : Option String → Bool
  | none => false
  | some s => unlikelyBranches.any (fun b => containsSubL (lowerL s.toList) b.toList)

/-- The branches of `CANDIDATE_RE` (regex.c). -/
def candidateBranches : List String :=
  ["and", "article", "body", "column", "content", "main", "shadow"]

/-- `regex_matches (&candidate_re, s)`. -/
def matchesCandidate : Option String → Bool
  | none => false
  | some s => candidateBranches.any (fun b => containsSubL (lowerL s.toList) b.toList)

/-- The branches of `BYLINE_RE` (regex.c). -/
def bylineBranches : List String :=
  ["byline", "author", "dateline", "writtenby", "p-author"]

/-- `regex_matches (&byline_re, s)`. -/
def matchesByline : Option String → Bool
  | none => false
  | some s => bylineBranches.any (fun b => containsSubL (lowerL s.toList) b.toList)

/-- `SENTENCE_DOT_RE` = `\.( |$)`: a dot followed by a space, or a final
dot. -/
def matchesSentenceDot (s : String) : Bool :=
  containsSubL s.toList ". ".toList || ".".toList.isSuffixOf s.toList

/-- The extensions of `IMGEXT_RE` / `SRCSET_RE` / `SRC_RE`. -/
def imgExts : List String :=
  [".jpg", ".jpeg", ".png", ".webp"]

/-- `regex_matches (&imgext_re, s)` = `\.(jpg|jpeg|png|webp)` anywhere. -/
def matchesImgext : Option String → Bool
  | none => false
  | some s => imgExts.any (fun b => containsSubL (lowerL s.toList) b.toList)

/-- The host alternatives of `VIDEOS_RE` (regex.c). -/
def videoHosts : List String :=
  ["dailymotion.com", "youtube.com", "youtube-nocookie.com",
   "player.vimeo.com", "v.qq.com", "archive.org", "upload.wikimedia.org",
   "player.twitch.tv"]

/-- `regex_matches (&videos_re, s)`: `//`, an optional `www.`, then one of
the hosts, anywhere in the string. -/
def matchesVideos : Option String → Bool
  | none => false
  | some s =>
    let t := lowerL s.toList
    videoHosts.any (fun h => containsSubL t ("//" ++ h).toList ||
      containsSubL t ("//www." ++ h).toList)

/-! ## node.c helpers (staged in sandbox.c, "Functions to obtain or save
information about an HTML node") -/

/-- `get_class_weight` (node.c, staged in sandbox.c): 0 when the
`weight_classes` flag is off; otherwise −25/+25 for a negative/positive
class and, independently, −25/+25 for a negative/positive id
(`regex_matches` is false on a NULL string, so a missing attribute
contributes nothing). -/
def get_class_weight (weightClasses : Bool) (n : HNode) : Int :=
  if !weightClasses then 0
  else
    (if matchesNegative (getProp n "class") then -25 else 0) +
    (if matchesPositive (getProp n "class") then 25 else 0) +
    (if matchesNegative (getProp n "id") then -25 else 0) +
    (if matchesPositive (getProp n "id") then 25 else 0)

/-- `node_has_unlikely_class_id` (node.c, staged in sandbox.c): the class
or the id must match the unlikely pattern, and neither the class nor the
id may match the candidate pattern. -/
def node_has_unlikely_class_id (n : HNode) : Bool :=
  if !matchesUnlikely (getProp n "class") &&
      !matchesUnlikely (getProp n "id") then false
  else if matchesCandidate (getProp n "class") ||
      matchesCandidate (getProp n "id") then false
  else true

/-- `xmlStrcasestr`: the suffix of the haystack starting at the first
case-insensitive occurrence of the pattern (`none` if it never occurs). -/
def strcasestrSuffix : List Char → List Char → Option (List Char)
  | [], pat => if pat.isEmpty then some [] else none
  | c :: rest, pat =>
    if (lowerL pat).isPrefixOf (lowerL (c :: rest)) then some (c :: rest)
    else strcasestrSuffix rest pat

/-- `is_display_none` (node.c, staged in sandbox.c): find `display`
case-insensitively, then parse from there with the `sscanf` format
`%*[^:]: %5[^; ]` — a non-empty run up to a colon, the colon, optional
whitespace, then one to five characters stopping at `;` or space — and the
value read must equal `none` case-insensitively. -/
def is_display_none (style : String) : Bool :=
  match strcasestrSuffix style.toList "display".toList with
  | none => false
  | some suf =>
    if (suf.takeWhile (fun c => !(c == ':'))).isEmpty then false
    else
      match suf.dropWhile (fun c => !(c == ':')) with
      | ':' :: rest =>
        let value :=
          ((rest.dropWhile isSpaceC).takeWhile
            (fun c => !(c == ';') && !(c == ' '))).take 5
        if value.isEmpty then false
        else lowerL value == "none".toList
      | _ => false

/-- `is_node_visible` (node.c, staged in sandbox.c): invisible when the
style sets display to none or a `hidden` attribute is present; otherwise
visible unless `aria-hidden` equals `"true"` (case-sensitive `strcmp`) and
the class does not contain `fallback-image` (case-sensitive `strstr`). -/
def is_node_visible (n : HNode) : Bool :=
  if (match getProp n "style" with
      | some st => is_display_none st
      | none => false) then false
  else if hasProp n "hidden" then false
  else if (getProp n "aria-hidden" == some "true") &&
      !(match getProp n "class" with
        | some c => containsSub c "fallback-image"
        | none => false) then false
  else true

/-- `attrcmp` (node.c, staged in sandbox.c): case-sensitive `strcmp` of an
attribute value against a literal (false when the attribute is absent). -/
def attrcmp (n : HNode) (name val : String) : Bool :=
  match getProp n name with
  | some v => v == val
  | none => false

/-! ## readability.c: scoring pass (claims C1 and C7) -/

/-- `struct node_info` (rdrview.h): the per-node annotation. -/
structure NodeInfo where
  toScore : Bool := false
  initialized : Bool := false
  candidate : Bool := false
  topCandidate : Bool := false
  dataTable : Bool := false
  score : ℚ := 0
deriving Repr, DecidableEq

/-- An ancestor of the node being scored, as the loop in
`assign_content_score_ancestors` sees it: whether libxml gives the node a
name, whether its own parent is an element node, its tag and attributes (for
initialization), and its current annotation. -/
structure AncNode where
  hasName : Bool
  parentIsElem : Bool
  tag : String
  attrs : List (String × String)
  info : NodeInfo
deriving Repr, DecidableEq

/-- The tag-based starting score added by `initialize_node`
(readability.c). -/
def tagInitScore (tag : String) : Int :=
  if tag == "div" then 5
  else if ["pre", "td", "blockquote"].contains tag then 3
  else if ["address", "form"].contains tag then -3
  else if ["ol", "ul", "dl", "dd", "dt", "li"].contains tag then -3
  else if ["h1", "h2", "h3", "h4", "h5", "h6", "th"].contains tag then -5
  else 0

/-- `initialize_node` (readability.c): add the tag score and the class
weight to the node's score and mark it initialized. -/
def initialize_node (weightClasses : Bool) (tag : String)
    (attrs : List (String × String)) (info : NodeInfo) : NodeInfo :=
  { info with
    score := info.score + (tagInitScore tag : ℚ) +
      (get_class_weight weightClasses (.elem tag attrs []) : ℚ),
    initialized := true }

/-- One round of the ancestor loop in `assign_content_score_ancestors`:
skip ancestors without a name or without an element parent; initialize and
mark CANDIDATE an uninitialized ancestor; then add the level's share
(level 3 → `score`, level 2 → `score / 2.0`, level 1 → `score / 6.0`). -/
def scoreOneAncestor (weightClasses : Bool) (s : Int) (level : Nat)
    (a : AncNode) : AncNode :=
  if !a.hasName then a
  else if !a.parentIsElem then a
  else
    let info1 :=
      if a.info.initialized then a.info
      else { initialize_node weightClasses a.tag a.attrs a.info with
              candidate := true }
    let add : ℚ :=
      if level = 3 then (s : ℚ)
      else if level = 2 then (s : ℚ) / 2
      else (s : ℚ) / 6
    { a with info := { info1 with score := info1.score + add } }

/-- `assign_content_score_ancestors` (readability.c): apply the loop to the
first three ancestors (a skipped ancestor still consumes its level). -/
def assign_content_score_ancestors (weightClasses : Bool) (s : Int) :
    List AncNode → List AncNode
  | [] => []
  | a1 :: rest1 =>
    scoreOneAncestor weightClasses s 3 a1 ::
      match rest1 with
      | [] => []
      | a2 :: rest2 =>
        scoreOneAncestor weightClasses s 2 a2 ::
          match rest2 with
          | [] => []
          | a3 :: rest3 => scoreOneAncestor weightClasses s 1 a3 :: rest3

/-- `assign_content_score` (readability.c): for a TO_SCORE node with an
element parent whose normalized text has at least 25 code points, compute
the raw score (`++score` for the paragraph, `char_count(text, ',') + 1`
comma points, plus one point per 100 characters up to 3) and propagate it to
the ancestors. -/
def assign_content_score (weightClasses : Bool) (toScore : Bool)
    (parentIsElem : Bool) (n : HNode) (ancs : List AncNode) : List AncNode :=
  if !toScore then ancs
  else if !parentIsElem then ancs
  else
    let txt := node_get_normalized_content n
    let length := utf8len txt
    if length < 25 then ancs
    else
      let score : Int :=
        1 + ((char_count txt ',' : Int) + 1) + (min (length / 100) 3 : Nat)
      assign_content_score_ancestors weightClasses score ancs

/-- The raw score the code actually computes for a scored node. -/
def rawScore (n : HNode) : Int :=
  1 + ((char_count (node_get_normalized_content n) ',' : Int) + 1) +
    (min (utf8len (node_get_normalized_content n) / 100) 3 : Nat)

/-- The per-ancestor update as the (amended) claim describes it: an
uninitialized ancestor is initialized and marked CANDIDATE, then the share
is added to its score. -/
def bumpAncestor (weightClasses : Bool) (add : ℚ) (a : AncNode) : AncNode :=
  let info1 :=
    if a.info.initialized then a.info
    else { initialize_node weightClasses a.tag a.attrs a.info with
            candidate := true }
  { a with info := { info1 with score := info1.score + add } }


theorem scoreOneAncestor_level3 (wc : Bool) (s : Int) (a : AncNode)
    (hn : a.hasName = true) (hp : a.parentIsElem = true) :
    scoreOneAncestor wc s 3 a = bumpAncestor wc (s : ℚ) a := by
  simp [scoreOneAncestor, bumpAncestor, hn, hp]

theorem scoreOneAncestor_level2 (wc : Bool) (s : Int) (a : AncNode)
    (hn : a.hasName = true) (hp : a.parentIsElem = true) :
    scoreOneAncestor wc s 2 a = bumpAncestor wc ((s : ℚ) / 2) a := by
  simp [scoreOneAncestor, bumpAncestor, hn, hp]

theorem scoreOneAncestor_level1 (wc : Bool) (s : Int) (a : AncNode)
    (hn : a.hasName = true) (hp : a.parentIsElem = true) :
    scoreOneAncestor wc s 1 a = bumpAncestor wc ((s : ℚ) / 6) a := by
  simp [scoreOneAncestor, bumpAncestor, hn, hp]

/-- C1 (amended): in the scoring pass, a TO_SCORE node with an element parent
whose normalized text has UTF-8 length `L ≥ 25` yields the raw score
`s = 2 + commas + min(L/100, 3)` (one base point plus `commas + 1` comma
points plus the capped length bonus); `s` is added to the parent, `s/2` to
the grandparent and `s/6` to the great-grandparent, initializing and marking
CANDIDATE any of the three that was not yet initialized; a node with `L < 25`
or without an element parent contributes nothing. -/
theorem c1_score_propagation (weightClasses : Bool) (n : HNode)
    (a1 a2 a3 : AncNode) (rest : List AncNode)
    (h1n : a1.hasName = true) (h1p : a1.parentIsElem = true)
    (h2n : a2.hasName = true) (h2p : a2.parentIsElem = true)
    (h3n : a3.hasName = true) (h3p : a3.parentIsElem = true) :
    (25 ≤ utf8len (node_get_normalized_content n) →
      assign_content_score weightClasses true true n (a1 :: a2 :: a3 :: rest) =
        bumpAncestor weightClasses ((rawScore n : Int) : ℚ) a1 ::
          bumpAncestor weightClasses ((rawScore n : ℚ) / 2) a2 ::
            bumpAncestor weightClasses ((rawScore n : ℚ) / 6) a3 :: rest) ∧
    (utf8len (node_get_normalized_content n) < 25 →
      assign_content_score weightClasses true true n (a1 :: a2 :: a3 :: rest) =
        a1 :: a2 :: a3 :: rest) ∧
    (∀ ts ancs, assign_content_score weightClasses ts false n ancs = ancs) ∧
    rawScore n = 2 + (char_count (node_get_normalized_content n) ',' : Int) +
      (min (utf8len (node_get_normalized_content n) / 100) 3 : Nat) := by
  refine ⟨?_, ?_, ?_, ?_⟩
  · intro hL
    have hnot : ¬ (utf8len (node_get_normalized_content n) < 25) := by omega
    simp only [assign_content_score, Bool.not_true, Bool.false_eq_true,
      if_false, hnot, if_neg, assign_content_score_ancestors,
      scoreOneAncestor_level3 _ _ _ h1n h1p,
      scoreOneAncestor_level2 _ _ _ h2n h2p,
      scoreOneAncestor_level1 _ _ _ h3n h3p, rawScore]
  · intro hL
    simp only [assign_content_score, Bool.not_true, Bool.false_eq_true,
      if_false, hL, if_true, if_pos]
  · intro ts ancs
    cases ts <;> simp [assign_content_score]
  · simp only [rawScore]
    omega

/-- A 25-character paragraph with no commas, the concrete input of the C1
counterexample. -/
def c1Node : HNode := .elem "p" [] [.text "aaaaaaaaaaaaaaaaaaaaaaaaa"]

/-- An uninitialized `<div>` parent for the C1 counterexample. -/
def c1AncDiv : AncNode := ⟨true, true, "div", [], {}⟩

/-- C1 (counterexample): for a 25-character comma-free paragraph the claim's
formula `s = 1 + commas + min(L/100, 3)` gives 1, so with the parent `<div>`
initializing to 5 the claim predicts a parent score of 6; the code adds
`char_count + 1` comma points and actually stores 7. -/
theorem c1_counterexample :
    ((assign_content_score true true true c1Node [c1AncDiv]).headD
        c1AncDiv).info.score = 7 ∧
    1 + (char_count (node_get_normalized_content c1Node) ',' : Int) +
      (min (utf8len (node_get_normalized_content c1Node) / 100) 3 : Nat) = 1 ∧
    tagInitScore "div" = 5 ∧
    get_class_weight true (.elem "div" [] []) = 0 ∧
    ¬ ((assign_content_score true true true c1Node [c1AncDiv]).headD
        c1AncDiv).info.score = 6 := by
  have hs : rawScore c1Node = 2 := rfl
  have h7 : ((assign_content_score true true true c1Node [c1AncDiv]).headD
      c1AncDiv).info.score = 7 := by
    show (scoreOneAncestor true (rawScore c1Node) 3 c1AncDiv).info.score = 7
    rw [hs]
    have hw : get_class_weight true (.elem "div" [] []) = 0 := rfl
    have ht : tagInitScore "div" = 5 := rfl
    simp only [scoreOneAncestor, c1AncDiv, initialize_node, hw, ht,
      Bool.not_true, Bool.false_eq_true, if_false, if_true, reduceIte]
    norm_num
  exact ⟨h7, rfl, rfl, rfl, by rw [h7]; norm_num⟩

/-- C1 (witness): the amended theorem applied to the concrete 25-character
paragraph under three fresh `<div>` ancestors. -/
theorem c1_score_propagation_witness :
    assign_content_score true true true c1Node [c1AncDiv, c1AncDiv, c1AncDiv] =
      [bumpAncestor true ((rawScore c1Node : Int) : ℚ) c1AncDiv,
       bumpAncestor true ((rawScore c1Node : ℚ) / 2) c1AncDiv,
       bumpAncestor true ((rawScore c1Node : ℚ) / 6) c1AncDiv] :=
  (c1_score_propagation true c1Node c1AncDiv c1AncDiv c1AncDiv [] rfl rfl rfl
    rfl rfl rfl).1 (by decide)

/-- The score normalization in `consider_for_top_list` (readability.c): a
CANDIDATE node's stored score is multiplied by `1 − link_density` and stored
back before the top-candidate insertion. -/
def consider_score_update (info : NodeInfo) (n : HNode) : ℚ :=
  info.score * (1 - get_link_density n)

/-- C7 (amended): the normalization of `consider_for_top_list` leaves the
stored score non-negative provided the score was non-negative before the
step and the node's link density is at most 1; the step preserves sign
rather than forcing it (see the counterexample for a candidate whose stored
score is negative after normalization). -/
theorem c7_normalized_score_nonneg (info : NodeInfo) (n : HNode)
    (h1 : 0 ≤ info.score) (h2 : get_link_density n ≤ 1) :
    0 ≤ consider_score_update info n := by
  unfold consider_score_update
  have h3 : 0 ≤ 1 - get_link_density n := by linarith
  exact mul_nonneg h1 h3

/-- The 25-character paragraph under a negatively-weighted `<form>` parent:
the concrete input of the C7 counterexample. -/
def c7Par : HNode := .elem "p" [] [.text "aaaaaaaaaaaaaaaaaaaaaaaaa"]

/-- The parent, an element whose class and id both match the negative
pattern. -/
def c7FormAttrs : List (String × String) := [("class", "sidebar"), ("id", "sidebar")]

/-- The parent as the ancestor record seen by the scoring pass. -/
def c7Anc : AncNode := ⟨true, true, "form", c7FormAttrs, {}⟩

/-- The parent as a tree, for the link-density computation. -/
def c7Form : HNode := .elem "form" c7FormAttrs [c7Par]

/-- C7 (counterexample): after the scoring pass the `<form class="sidebar"
id="sidebar">` parent is a CANDIDATE with stored score −51 (tag −3, class
and id weight −50, content score +2), and the top-candidate normalization
multiplies it by `1 − link_density = 1`, storing −51 < 0: a candidate's
stored score after the final normalization step is negative. -/
theorem c7_counterexample :
    ((assign_content_score true true true c7Par [c7Anc]).headD
        c7Anc).info.candidate = true ∧
    consider_score_update
      ((assign_content_score true true true c7Par [c7Anc]).headD c7Anc).info
      c7Form < 0 := by
  have hs : rawScore c7Par = 2 := rfl
  have hsc : ((assign_content_score true true true c7Par [c7Anc]).headD
      c7Anc).info.score = -51 := by
    show (scoreOneAncestor true (rawScore c7Par) 3 c7Anc).info.score = -51
    rw [hs]
    have hw : get_class_weight true (.elem "form" c7FormAttrs []) = -50 := rfl
    have ht : tagInitScore "form" = -3 := rfl
    simp only [scoreOneAncestor, c7Anc, initialize_node, hw, ht,
      Bool.not_true, Bool.false_eq_true, if_false, if_true, reduceIte]
    norm_num
  have hd : get_link_density c7Form = 0 := by
    have hT : text_normalized_content_length c7Form = 25 := rfl
    have hS : sumLinkLen (childrenOf c7Form) = 0 := rfl
    simp only [get_link_density, hT, hS]
    norm_num
  refine ⟨rfl, ?_⟩
  rw [consider_score_update, hsc, hd]
  norm_num

/-! ## readability.c: metadata harvest (claims C3, C4) -/

/-- The prefix alternatives of `PROPERTY_RE`. -/
def metaPrefixes : List String := ["dc", "dcterm", "og", "twitter"]

/-- The prefix alternatives of `NAME_RE` (adds the weibo forms). -/
def metaNamePrefixes : List String :=
  ["dc", "dcterm", "og", "twitter", "weibo:article", "weibo:webpage"]

/-- The field alternatives of both meta patterns. -/
def metaFields : List String :=
  ["author", "creator", "description", "title", "site_name"]

/-- Does `PROPERTY_RE`'s core match at the head of `t`: a prefix, optional
whitespace, `:`, optional whitespace, a field? -/
def propertyAt (t : List Char) : Bool :=
  metaPrefixes.any (fun p =>
    p.toList.isPrefixOf t &&
    (match (t.drop p.length).dropWhile isSpaceC with
     | ':' :: r2 =>
       metaFields.any (fun f => f.toList.isPrefixOf (r2.dropWhile isSpaceC))
     | _ => false))

/-- `regex_matches (&property_re, s)`: `PROPERTY_RE` is unanchored, so the
match may start anywhere. -/
def matchesProperty : Option String → Bool
  | none => false
  | some s => (lowerL s.toList).tails.any propertyAt

/-- `regex_matches (&name_re, s)`: `NAME_RE` is anchored on both sides:
optional whitespace, an optional `prefix [.:]` part, a field, optional
whitespace, end. -/
def matchesName : Option String → Bool
  | none => false
  | some s =>
    let t := (lowerL s.toList).dropWhile isSpaceC
    let fieldEnd := fun (r : List Char) =>
      metaFields.any (fun f => f.toList.isPrefixOf r &&
        ((r.drop f.length).dropWhile isSpaceC).isEmpty)
    fieldEnd t ||
      metaNamePrefixes.any (fun p =>
        p.toList.isPrefixOf t &&
        (match (t.drop p.length).dropWhile isSpaceC with
         | c :: r2 => (c == '.' || c == ':') && fieldEnd (r2.dropWhile isSpaceC)
         | [] => false))

/-- `struct metadata` (rdrview.h), the harvested fields. -/
structure Metadata where
  title : Option String := none
  byline : Option String := none
  excerpt : Option String := none
  site_name : Option String := none
deriving Repr, DecidableEq

/-- The harvester's process-global state: the metadata record plus the
static `best_i` ranks inside `is_better_title`, `is_better_byline` and
`is_better_excerpt` (each starts at its array size). -/
structure HarvestState where
  meta : Metadata := {}
  bestTitle : Nat := 7
  bestByline : Nat := 3
  bestExcerpt : Nat := 7
deriving Repr, DecidableEq

/-- `titlenames` (readability.c). -/
def titleNames : List String :=
  ["dc:title", "dcterm:title", "og:title", "weibo:article:title",
   "weibo:webpage:title", "title", "twitter:title"]

/-- `authornames` (readability.c). -/
def authorNames : List String := ["dc:creator", "dcterm:creator", "author"]

/-- `excerptnames` (readability.c). -/
def excerptNames : List String :=
  ["dc:description", "dcterm:description", "og:description",
   "weibo:article:description", "weibo:webpage:description", "description",
   "twitter:description"]

/-- Split a character list into its maximal whitespace-free tokens. -/
def tokensAux : List Char → List Char → List (List Char)
  | [], cur => if cur.isEmpty then [] else [cur.reverse]
  | c :: rest, cur =>
    if isSpaceC c then
      if cur.isEmpty then tokensAux rest [] else cur.reverse :: tokensAux rest []
    else tokensAux rest (c :: cur)

/-- `word_in_str` (content.c): the word occurs as one of the
whitespace-separated tokens, compared ASCII-case-insensitively. -/
def word_in_str (s word : String) : Bool :=
  (tokensAux s.toList []).any (fun t => lowerL t == lowerL word.toList)

/-- The `is_better_*` loops (readability.c): the first index `i` with
`i <= best_i` whose name occurs as a word of `nameprop`. -/
def betterIdx (names : List String) (best : Nat) (nameprop : String) :
    Option Nat :=
  (List.range names.length).find? (fun i =>
    decide (i ≤ best) && word_in_str nameprop (names.getD i ""))

/-- `replace_char(nameprop, '.', ':')`. -/
def dotsToColons (s : String) : String :=
  ⟨s.toList.map (fun c => if c == '.' then ':' else c)⟩

/-- `parse_meta_attrs` (readability.c): skip empty content, replace dots by
colons, then assign the normalized content to the first field (title, then
byline, then excerpt, then site name) whose priority list admits it. -/
def parse_meta_attrs (nameprop content : String) (st : HarvestState) :
    HarvestState :=
  if content.toList.isEmpty then st
  else
    let np := dotsToColons nameprop
    match betterIdx titleNames st.bestTitle np with
    | some i =>
      { st with meta := { st.meta with title := some (normalizeStr content) },
                bestTitle := i }
    | none =>
      match betterIdx authorNames st.bestByline np with
      | some i =>
        { st with
          meta := { st.meta with byline := some (normalizeStr content) },
          bestByline := i }
      | none =>
        match betterIdx excerptNames st.bestExcerpt np with
        | some i =>
          { st with
            meta := { st.meta with excerpt := some (normalizeStr content) },
            bestExcerpt := i }
        | none =>
          if word_in_str np "og:site_name" then
            { st with
              meta := { st.meta with site_name := some (normalizeStr content) } }
          else st

/-- `node_extract_metadata` (readability.c) on one node: update the state;
the flag reports a `<title>` element (`run_on_nodes` keeps the last one). -/
def node_extract_metadata (n : HNode) (st : HarvestState) :
    HarvestState × Bool :=
  if node_has_tag n ["title"] then (st, true)
  else if node_has_tag n ["meta"] then
    match getProp n "content" with
    | none => (st, false)
    | some content =>
      if matchesProperty (getProp n "property") then
        (parse_meta_attrs ((getProp n "property").getD "") content st, false)
      else if matchesName (getProp n "name") then
        (parse_meta_attrs ((getProp n "name").getD "") content st, false)
      else (st, false)
  else (st, false)

mutual

/-- The `run_on_nodes` walk of `get_article_metadata` over a sibling list. -/
def harvestWalkL : List HNode → HarvestState × Option HNode →
    HarvestState × Option HNode
  | [], acc => acc
  | c :: cs, acc => harvestWalkL cs (harvestWalkN c acc)

/-- The walk on one node and its subtree, in document order. -/
def harvestWalkN : HNode → HarvestState × Option HNode →
    HarvestState × Option HNode
  | .elem t a cs, acc =>
    let st2 := node_extract_metadata (.elem t a cs) acc.1
    harvestWalkL cs (st2.1, if st2.2 then some (.elem t a cs) else acc.2)
  | .text str, acc =>
    let st2 := node_extract_metadata (.text str) acc.1
    (st2.1, if st2.2 then some (.text str) else acc.2)
  | .comm str, acc =>
    let st2 := node_extract_metadata (.comm str) acc.1
    (st2.1, if st2.2 then some (.comm str) else acc.2)

end

mutual

/-- `ckdesc`-style walk: does any node of the list's subtrees satisfy the
predicate? -/
def existsNodeL (p : HNode → Bool) : List HNode → Bool
  | [] => false
  | c :: cs => existsNodeN p c || existsNodeL p cs

/-- Does any node of this subtree (the node included) satisfy `p`? -/
def existsNodeN (p : HNode → Bool) : HNode → Bool
  | .elem t a cs => p (.elem t a cs) || existsNodeL p cs
  | .text str => p (.text str)
  | .comm str => p (.comm str)

end

/-- `is_heading_with_str` (readability.c). -/
def is_heading_with_str (str : String) (n : HNode) : Bool :=
  node_has_tag n ["h1", "h2"] && (node_get_normalized_content n == str)

/-- `SEPARATORS` (content.c): the title-separator characters. -/
def sepChars : List Char := ['|', '-', '\\', '/', '>', '»']

/-- `find_last_separator` (content.c): the last separator character that has
a space on both sides (never at index 0). -/
def find_last_separator (cs : List Char) : Option Nat :=
  ((List.range cs.length).filter (fun i =>
    sepChars.contains (cs.getD i ' ') && decide (1 ≤ i) &&
      cs.getD (i - 1) 'x' == ' ' && decide (i + 1 < cs.length) &&
      cs.getD (i + 1) 'x' == ' ')).getLast?

/-- `strrchr(title, ':')`: index of the last colon. -/
def lastColonIdx (cs : List Char) : Option Nat :=
  ((List.range cs.length).filter (fun i => cs.getD i ' ' == ':')).getLast?

/-- The fueled worker for `word_count` (content.c): skip whitespace, then in
separators-as-spaces mode separator characters; count a token — when a
separator is directly followed by whitespace this counts an empty token,
exactly as the C loop does — then skip the token's characters. -/
def word_count_aux (fuel : Nat) (sepSpaces : Bool) (cs : List Char) : Nat :=
  match fuel with
  | 0 => 0
  | fuel + 1 =>
    let cs1 := cs.dropWhile isSpaceC
    let cs2 := if sepSpaces then cs1.dropWhile (fun c => sepChars.contains c)
      else cs1
    if cs2.isEmpty then 0
    else
      1 + word_count_aux fuel sepSpaces
        (cs2.dropWhile (fun c => !isSpaceC c &&
          (!sepSpaces || !sepChars.contains c)))

/-- `word_count` (content.c); the fuel covers the loop, which consumes at
least one character per counted token. -/
def word_count (s : String) (sepSpaces : Bool) : Nat :=
  word_count_aux (s.toList.length + 1) sepSpaces s.toList

/-- `get_article_title` (readability.c): truncate at the last separator
surrounded by spaces (dropping the separator and the space before it), else
try the text after the last colon unless a heading carries the exact title;
a result of at most four words is reverted to the original unless a
separator was used and the word count equals the separators-as-spaces word
count of the original minus one. -/
def get_article_title (doc : HNode) (titlenode : HNode) : String :=
  let title := node_get_normalized_content titlenode
  let tl := title.toList
  match find_last_separator tl with
  | some i =>
    let t2 : String := ⟨tl.take (i - 1)⟩
    let tc := word_count t2 false
    let oc := word_count title true
    if tc ≤ 4 && !((tc : Int) == (oc : Int) - 1) then title else t2
  | none =>
    match lastColonIdx tl with
    | some j =>
      if existsNodeL (is_heading_with_str title) (childrenOf doc) then title
      else
        let t2 : String := ⟨tl.drop (j + 1)⟩
        let tc := word_count t2 false
        if tc ≤ 4 then title else t2
    | none => title

/-- `get_article_metadata` (readability.c): walk the document once; then, if
no meta tag supplied a title, derive one from the last `<title>` element. -/
def get_article_metadata (doc : HNode) (st : HarvestState) : HarvestState :=
  let r := harvestWalkL (childrenOf doc) (st, none)
  match r.1.meta.title, r.2 with
  | none, some t =>
    { r.1 with meta := { r.1.meta with
        title := some (get_article_title doc t) } }
  | _, _ => r.1

/-- C7 (witness): the amended theorem applied to an initialized candidate of
score 3 over the concrete 25-character paragraph (link density 0). -/
theorem c7_normalized_score_nonneg_witness :
    0 ≤ consider_score_update ⟨false, true, true, false, false, 3⟩ c7Par :=
  c7_normalized_score_nonneg ⟨false, true, true, false, false, 3⟩ c7Par
    (by norm_num)
    (by
      have hT : text_normalized_content_length c7Par = 25 := rfl
      have hS : sumLinkLen (childrenOf c7Par) = 0 := rfl
      simp only [get_link_density, hT, hS]
      norm_num)

/-- Scenario S3's document: a `<title>` element with the separator title and
no meta tags. -/
def c4Doc : HNode :=
  .elem "html" []
    [.elem "head" []
      [.elem "title" [] [.text "The Real Title | Example Site"]],
     .elem "body" [] [.elem "p" [] [.text "Body text."]]]

/-- C4 (counterexample): the harvested title for
`<title>The Real Title | Example Site</title>` is NOT `"The Real Title"` —
the 3-word truncation trips the revert rule that the claim itself cites. -/
theorem c4_counterexample :
    (get_article_metadata c4Doc {}).meta.title ≠ some "The Real Title" := by
  decide

/-- C4 (amended): for that document the harvested title is the whole
original `"The Real Title | Example Site"`: truncation at the last
spaced separator yields the 3-word `"The Real Title"`, and since 3 ≤ 4 and 3
differs by more than one from the separators-as-spaces word count of the
original (6, counting the empty token the C scanner produces at `| `), the
truncation is reverted to the original. -/
theorem c4_title_reverted :
    (get_article_metadata c4Doc {}).meta.title =
      some "The Real Title | Example Site" ∧
    find_last_separator ("The Real Title | Example Site".toList) = some 15 ∧
    word_count "The Real Title" false = 3 ∧
    word_count "The Real Title | Example Site" true = 6 := by
  decide

/-! ## readability.c: document preparation pipeline (claim C3) -/

mutual

/-- Structure size of a node (attribute and text strings not counted), the
fuel bound for the fueled passes below. -/
def nodeCount : HNode → Nat
  | .elem _ _ cs => 1 + nodeCountL cs
  | _ => 1

/-- Structure size of a node list. -/
def nodeCountL : List HNode → Nat
  | [] => 0
  | c :: cs => nodeCount c + nodeCountL cs

end

mutual

/-- Nesting depth of a node. -/
def nodeDepth : HNode → Nat
  | .elem _ _ cs => 1 + nodeDepthL cs
  | _ => 1

/-- Greatest nesting depth in a node list. -/
def nodeDepthL : List HNode → Nat
  | [] => 0
  | c :: cs => max (nodeDepth c) (nodeDepthL cs)

end

mutual

/-- `remove_descendants_if` over a sibling list: a removed node's subtree is
skipped (`remove_and_get_following`); a kept node's children are visited. -/
def removeNodesL (p : HNode → Bool) : List HNode → List HNode
  | [] => []
  | c :: cs =>
    if p c then removeNodesL p cs
    else removeNodesN p c :: removeNodesL p cs

/-- Descend into a kept node. -/
def removeNodesN (p : HNode → Bool) : HNode → HNode
  | .elem t a cs => .elem t a (removeNodesL p cs)
  | n => n

end

/-- `remove_nodes_if` (iterator.c): the walk starts at `first_node`, so the
root itself is never checked. -/
def remove_nodes_if (p : HNode → Bool) (doc : HNode) : HNode :=
  removeNodesN p doc

/-- `is_comment` (readability.c). -/
def is_comment : HNode → Bool
  | .comm _ => true
  | _ => false

/-- `is_script_or_noscript` (readability.c); the C also clears a script's
`src` and content before removal, which the removal makes moot. -/
def is_script_or_noscript (n : HNode) : Bool :=
  node_has_tag n ["noscript"] || node_has_tag n ["script"]

/-- `is_image_placeholder` (readability.c): an `<img>` with no
`src`/`srcset`/`data-src`/`data-srcset` attribute and no attribute value
matching the image-extension pattern. -/
def is_image_placeholder (n : HNode) : Bool :=
  node_has_tag n ["img"] &&
  (match n with
   | .elem _ attrs _ => attrs.all (fun p =>
       !(["src", "srcset", "data-src", "data-srcset"].contains p.1) &&
       !matchesImgext (some p.2))
   | _ => false)

/-- The loop of `get_single_image` (readability.c), by depth fuel: descend
through nodes that have exactly one element child and no non-empty text
children, to a single `<img>`. -/
def getSingleImageGo : Nat → HNode → Option HNode
  | 0, _ => none
  | fuel + 1, .elem _ _ cs =>
    if cs.any (fun c => !isElemN c &&
        decide (text_normalized_content_length c ≠ 0)) then none
    else
      match cs.filter isElemN with
      | [e] =>
        if node_has_tag e ["img"] then some e else getSingleImageGo fuel e
      | _ => none
  | _ + 1, _ => none

/-- `get_single_image` (readability.c). -/
def get_single_image (n : HNode) : Option HNode :=
  if node_has_tag n ["img"] then some n else getSingleImageGo (nodeDepth n) n

/-- `is_image_attr` (readability.c). -/
def is_image_attr (name v : String) : Bool :=
  !v.toList.isEmpty &&
  (lowerL name.toList == "src".toList || lowerL name.toList == "srcset".toList ||
    matchesImgext (some v))

/-- The attribute fold of `copy_image_attrs` (readability.c): image-bearing
attributes of the old image are merged into the new one, existing values
preserved and conflicts backed up under `data-old-<name>`. -/
def copyImageAttrsList (dest : HNode) : List (String × String) → HNode
  | [] => dest
  | (name, v) :: rest =>
    let dest2 :=
      if !is_image_attr name v then dest
      else
        match getProp dest name with
        | none => setProp dest name v
        | some dv => if dv == v then dest else setProp dest ("data-old-" ++ name) v
    copyImageAttrsList dest2 rest

/-- `copy_image_attrs` (readability.c). -/
def copy_image_attrs (dest src : HNode) : HNode :=
  copyImageAttrsList dest (match src with | .elem _ a _ => a | _ => [])

/-- Remove the single image that `get_single_image` found from the wrapper
chain (the effect `xmlReplaceNode(prev, newimg)` has on the noscript's own
subtree: the image is unlinked from it). -/
def removeSingleImage : Nat → HNode → HNode
  | 0, n => n
  | fuel + 1, .elem t a cs =>
    match cs.filter isElemN with
    | [e] =>
      if node_has_tag e ["img"] then .elem t a (cs.filter (fun c => !isElemN c))
      else .elem t a (cs.map (fun c =>
        if isElemN c then removeSingleImage fuel c else c))
    | _ => .elem t a cs
  | _ + 1, n => n

/-- `prev_element` (iterator.c), scanning an already-visited sibling list
(nearest first): the first element, unless a non-empty text node comes
first. -/
def prevElemIn : List HNode → Option (Nat × HNode) :=
  go 0
where
  go (i : Nat) : List HNode → Option (Nat × HNode)
    | [] => none
    | c :: cs =>
      if isElemN c then some (i, c)
      else if text_content_length c ≠ 0 then none
      else go (i + 1) cs

/-- Replace the element at an index of a list. -/
def replaceAt (l : List HNode) (i : Nat) (x : HNode) : List HNode :=
  l.take i ++ [x] ++ l.drop (i + 1)

/-- The `run_on_nodes (doc, unwrap_if_noscript_image)` walk, by fuel (every
recursive call burns one unit; the pipeline passes ample fuel).  `done` holds
the already-visited siblings of the current level, nearest first — the state
`prev_element` scans.  A `<noscript>` with a single image whose previous
element sibling also holds a single image has the old image's attributes
merged into its own image, the previous sibling replaced by that image, and
the image unlinked from the noscript before the walk descends into it. -/
def unwrapGo : Nat → List HNode → List HNode → List HNode
  | 0, done, todo => done.reverse ++ todo
  | _ + 1, done, [] => done.reverse
  | fuel + 1, done, c :: rest =>
    let descended : HNode → HNode := fun n =>
      match n with
      | .elem t a cs => .elem t a (unwrapGo fuel [] cs)
      | m => m
    if node_has_tag c ["noscript"] then
      match get_single_image c with
      | none => unwrapGo fuel (descended c :: done) rest
      | some newimg =>
        match prevElemIn done with
        | none => unwrapGo fuel (descended c :: done) rest
        | some pp =>
          match get_single_image pp.2 with
          | none => unwrapGo fuel (descended c :: done) rest
          | some oldimg =>
            unwrapGo fuel
              (descended (removeSingleImage (nodeDepth c) c) ::
                replaceAt done pp.1 (copy_image_attrs newimg oldimg)) rest
    else unwrapGo fuel (descended c :: done) rest

/-- `unwrap_noscript_images` (readability.c): drop placeholder images, then
run the noscript unwrapping walk. -/
def unwrap_noscript_images (doc : HNode) : HNode :=
  let d1 := remove_nodes_if is_image_placeholder doc
  match d1 with
  | .elem t a cs => .elem t a (unwrapGo (2 * nodeCountL cs + 2) [] cs)
  | n => n

/-! ## content.c: phrasing content; readability.c: prep_document -/

/-- `PHRASING_ELEMS` (content.c). -/
def phrasingElems : List String :=
  ["abbr", "audio", "b", "bdo", "br", "button", "cite", "code", "data",
   "datalist", "dfn", "em", "embed", "i", "img", "input", "kbd", "label",
   "mark", "math", "meter", "noscript", "object", "output", "progress", "q",
   "ruby", "samp", "script", "select", "small", "span", "strong", "sub",
   "sup", "textarea", "time", "var", "wbr"]

/-- `is_definitely_phrasing_content` (content.c). -/
def is_definitely_phrasing_content (n : HNode) : Bool :=
  isTextN n || node_has_tag n phrasingElems

/-- `is_conditional_phrasing_content` (content.c). -/
def is_conditional_phrasing_content (n : HNode) : Bool :=
  node_has_tag n ["a", "del", "ins"]

/-- `can_be_phrasing_content` (content.c). -/
def can_be_phrasing_content (n : HNode) : Bool :=
  is_definitely_phrasing_content n || is_conditional_phrasing_content n

mutual

/-- `forall_descendants` over a sibling list's subtrees. -/
def forallDescL (p : HNode → Bool) : List HNode → Bool
  | [] => true
  | c :: cs => forallDescN p c && forallDescL p cs

/-- Does every node of this subtree (the node included) satisfy `p`? -/
def forallDescN (p : HNode → Bool) : HNode → Bool
  | .elem t a cs => p (.elem t a cs) && forallDescL p cs
  | n => p n

end

/-- `is_phrasing_content` (content.c): definitely-phrasing, or an
`a`/`del`/`ins` all of whose descendants can be phrasing content. -/
def is_phrasing_content (n : HNode) : Bool :=
  is_definitely_phrasing_content n ||
    (is_conditional_phrasing_content n &&
      forallDescL can_be_phrasing_content (childrenOf n))

mutual

/-- The style/font walk of `prep_document` (readability.c) on a sibling
list: `<style>` subtrees are removed (with their descendants skipped) and
the walk descends everywhere else. -/
def prepSFL : List HNode → List HNode
  | [] => []
  | c :: cs =>
    if node_has_tag c ["style"] then prepSFL cs
    else prepSFN c :: prepSFL cs

/-- Descend into one kept node, renaming `<font>` to `<span>`. -/
def prepSFN : HNode → HNode
  | .elem t a k => .elem (if t == "font" then "span" else t) a (prepSFL k)
  | n => n

end

/-- `next_element` (iterator.c) over the following-siblings list: the first
element, unless a non-empty text node comes first. -/
def next_element_in : List HNode → Option HNode
  | [] => none
  | c :: cs =>
    if isElemN c then some c
    else if text_content_length c ≠ 0 then none
    else next_element_in cs

/-- `is_whitespace` (readability.c). -/
def is_whitespace_node (n : HNode) : Bool :=
  (isTextN n && text_content_length n == 0) || node_has_tag n ["br"]

/-- `prune_trailing_whitespace` (readability.c) on a children list. -/
def pruneTrailing (l : List HNode) : List HNode :=
  (l.reverse.dropWhile is_whitespace_node).reverse

/-- A node `next_element` skips: not an element and without raw text. -/
def isEmptyTextNode (n : HNode) : Bool :=
  !isElemN n && text_content_length n == 0

/-- The `<br>`-deletion loop of `replace_brs` (readability.c): repeatedly
delete the next element sibling while it is a `<br>` (whitespace text nodes
in between stay in place); fueled by the list length. -/
def delBrs : Nat → List HNode → List HNode
  | 0, l => l
  | fuel + 1, l =>
    match l.dropWhile isEmptyTextNode with
    | e :: tail =>
      if node_has_tag e ["br"] then
        delBrs fuel (l.takeWhile isEmptyTextNode ++ tail)
      else l
    | [] => l

/-- The adoption loop of `replace_brs`: take following siblings into the new
paragraph until a `<br><br>` run or a non-phrasing node is met. -/
def adoptSpan : List HNode → List HNode × List HNode
  | [] => ([], [])
  | c :: rest =>
    if (node_has_tag c ["br"] && node_has_tagO (next_element_in rest) ["br"]) ||
        !is_phrasing_content c then
      ([], c :: rest)
    else
      let pr := adoptSpan rest
      (c :: pr.1, pr.2)

/-- The `run_on_nodes (doc, replace_brs)` walk on a sibling list, by fuel
(every recursive call burns one unit; callers pass ample fuel).  Returns the
rewritten list and whether a `<br>` run was coalesced directly at this level
(in which case a `<p>` parent is renamed to `<div>`). -/
def brsGo : Nat → List HNode → List HNode × Bool
  | 0, cs => (cs, false)
  | _ + 1, [] => ([], false)
  | fuel + 1, c :: rest =>
    match c with
    | .elem t a cs =>
      if t == "br" && node_has_tagO (next_element_in rest) ["br"] then
        let rest1 := delBrs rest.length rest
        let ar := adoptSpan rest1
        let kids := pruneTrailing (cs ++ ar.1)
        let inner := brsGo fuel kids
        let restRes := brsGo fuel ar.2
        ((.elem (if inner.2 then "div" else "p") a inner.1) :: restRes.1, true)
      else
        let inner := brsGo fuel cs
        let t2 := if inner.2 && t == "p" then "div" else t
        let restRes := brsGo fuel rest
        ((.elem t2 a inner.1) :: restRes.1, restRes.2)
    | other =>
      let restRes := brsGo fuel rest
      (other :: restRes.1, restRes.2)

/-- `prep_document` (readability.c): remove `<style>`, rename `<font>` to
`<span>`, then coalesce `<br>` runs into paragraphs. -/
def prep_document (doc : HNode) : HNode :=
  match doc with
  | .elem t a cs =>
    let cs1 := prepSFL cs
    .elem t a (brsGo (2 * nodeCountL cs1 + 2) cs1).1
  | n => n

/-- The metadata part of `parse` (readability.c), in the statement order of
the source: comments removed, noscript images unwrapped, scripts and
noscripts removed and the document prepped BEFORE `get_article_metadata`
runs (`set_base_url_from_doc` only touches URL options and is omitted). -/
def parseMetadataOf (doc : HNode) : HarvestState :=
  let d1 := remove_nodes_if is_comment doc
  let d2 := unwrap_noscript_images d1
  let d3 := remove_nodes_if is_script_or_noscript d2
  let d4 := prep_document d3
  get_article_metadata d4 {}

/-- A document whose only metadata carrier is a `<meta>` inside a
`<noscript>`: the concrete input of the C3 counterexample. -/
def c3Doc : HNode :=
  .elem "html" []
    [.elem "head" []
      [.elem "noscript" []
        [.elem "meta" [("property", "og:title"), ("content", "Hidden Title")] []]],
     .elem "body" [] [.elem "p" [] [.text "Some body text."]]]

/-- C3 (counterexample): harvesting the document as supplied yields the
title `"Hidden Title"` from the meta inside the noscript, but `parse` runs
`get_article_metadata` only after the noscript (and the meta inside it) has
been deleted, so the extracted metadata has no title: the metadata record is
NOT computed from the document as supplied. -/
theorem c3_counterexample :
    (get_article_metadata c3Doc {}).meta.title = some "Hidden Title" ∧
    (parseMetadataOf c3Doc).meta.title = none := by
  decide

/-- The C3 family: a document whose only `<meta>` sits inside a
`<noscript>`, with arbitrary property and content strings. -/
def c3Fam (prop content : String) : HNode :=
  .elem "html" []
    [.elem "head" []
      [.elem "noscript" [] [.elem "meta" [("property", prop), ("content", content)] []]],
     .elem "body" [] []]

set_option maxHeartbeats 4000000

/-- C3 (amended): `parse` harvests metadata only after document preparation
(comment removal, noscript-image unwrapping, script/noscript/style removal,
br coalescing) — the composition below is the statement order of the source
— and consequently a meta tag inside a noscript never contributes: for every
property and content value, the harvested metadata record is empty. -/
theorem c3_metadata_after_prep :
    (∀ d, parseMetadataOf d =
      get_article_metadata
        (prep_document (remove_nodes_if is_script_or_noscript
          (unwrap_noscript_images (remove_nodes_if is_comment d)))) {}) ∧
    (∀ prop content, parseMetadataOf (c3Fam prop content) = {}) := by
  refine ⟨fun d => rfl, fun prop content => ?_⟩
  rfl

/-! ## readability.c: post-processing of links (claim C6) -/

/-- `to_absolute_url` (readability.c): hash links are left alone unless the
URL was overridden; trailing whitespace is trimmed in place; then the URL is
resolved against the base URL.  `xmlBuildURI` is a libxml2 function outside
this repository, taken as the parameter `resolve`; on its failure the
trimmed original stays. -/
def to_absolute_url (urlOverride : Bool) (resolve : String → Option String)
    (u : String) : String :=
  if !urlOverride && u.toList.headD 'x' == '#' then u
  else
    let t : String := ⟨(u.toList.reverse.dropWhile isSpaceC).reverse⟩
    match resolve t with
    | none => t
    | some r => r

/-- `remove_but_preserve_content` (readability.c): a node with a single text
child becomes a bare text node; otherwise a `<span>` adopts its children. -/
def remove_but_preserve_content (n : HNode) : HNode :=
  match childrenOf n with
  | [.text s] => .text s
  | cs => .elem "span" [] cs

/-- `fix_non_absolute_link` (readability.c): on an `<a>` with an `href`, a
URL containing `javascript:` (case-insensitively, anywhere — the C uses
`xmlStrcasestr`) replaces the element while preserving its content; any
other URL is resolved to absolute. -/
def fix_non_absolute_link (urlOverride : Bool)
    (resolve : String → Option String) (n : HNode) : HNode :=
  if !node_has_tag n ["a"] then n
  else
    match getProp n "href" with
    | none => n
    | some href =>
      if containsCI href "javascript:" then remove_but_preserve_content n
      else setProp n "href" (to_absolute_url urlOverride resolve href)

mutual

/-- `change_descendants (article, fix_non_absolute_link)` over a sibling
list. -/
def fixLinksL (uo : Bool) (resolve : String → Option String) :
    List HNode → List HNode
  | [] => []
  | c :: cs => fixLinksN uo resolve c :: fixLinksL uo resolve cs

/-- One node of the link-fixing walk: the replacement result becomes the new
cursor and its children (the original node's children) are visited. -/
def fixLinksN (uo : Bool) (resolve : String → Option String) : HNode → HNode
  | .elem t a cs =>
    match fix_non_absolute_link uo resolve (.elem t a cs) with
    | .elem t2 a2 _ => .elem t2 a2 (fixLinksL uo resolve cs)
    | other => other
  | n => n

end

/-- C6 (counterexample): an `<a>` whose href does NOT start with
`javascript:` but merely contains it is still replaced (here by a bare text
node), because the code searches for the substring with `xmlStrcasestr`;
the claim's "starts with" predicts the `<a>` would be kept and resolved. -/
theorem c6_counterexample :
    fix_non_absolute_link false (fun s => some ("https://e.test" ++ s))
      (.elem "a" [("href", "/x?u=javascript:y()")] [.text "go"]) = .text "go" ∧
    "javascript:".toList.isPrefixOf "/x?u=javascript:y()".toList = false := by
  constructor
  · rfl
  · rfl

/-- C6 (amended): post-processing replaces every `<a>` whose href CONTAINS
`javascript:` (case-insensitively) by a `<span>` wrapping its children, or
by a bare text node when its only child is a text node; every other href is
resolved against the base URL, except that a hash-only link is left alone
when no URL override is set; and for a paragraph containing
`<a href="javascript:x()">click</a>` the output contains the text `click`
but no `<a>` element and no `javascript:` substring. -/
theorem c6_link_rewrite (uo : Bool) (resolve : String → Option String)
    (attrs : List (String × String)) (cs : List HNode) (h : String)
    (hh : getProp (.elem "a" attrs cs) "href" = some h) :
    (containsCI h "javascript:" = true →
      fix_non_absolute_link uo resolve (.elem "a" attrs cs) =
        remove_but_preserve_content (.elem "a" attrs cs) ∧
      (∀ s, cs = [.text s] →
        remove_but_preserve_content (.elem "a" attrs cs) = .text s) ∧
      ((∀ s, cs ≠ [.text s]) →
        remove_but_preserve_content (.elem "a" attrs cs) = .elem "span" [] cs)) ∧
    (containsCI h "javascript:" = false →
      fix_non_absolute_link uo resolve (.elem "a" attrs cs) =
        setProp (.elem "a" attrs cs) "href" (to_absolute_url uo resolve h)) ∧
    (uo = false → (h.toList.headD 'x' == '#') = true →
      to_absolute_url uo resolve h = h) ∧
    fixLinksN uo resolve
        (.elem "p" [] [.elem "a" [("href", "javascript:x()")] [.text "click"]]) =
      .elem "p" [] [.text "click"] := by
  have hta : node_has_tag (.elem "a" attrs cs) ["a"] = true := rfl
  refine ⟨?_, ?_, ?_, ?_⟩
  · intro hjs
    refine ⟨?_, ?_, ?_⟩
    · simp [fix_non_absolute_link, hta, hh, hjs]
    · intro s hcs
      subst hcs
      rfl
    · intro hne
      rcases cs with _ | ⟨c1, rest⟩
      · rfl
      · rcases rest with _ | ⟨c2, rest2⟩
        · cases c1 with
          | text s => exact absurd rfl (hne s)
          | elem t2 a2 k => rfl
          | comm s => rfl
        · cases c1 <;> rfl
  · intro hjs
    simp [fix_non_absolute_link, hta, hh, hjs]
  · intro huo hhash
    have hcond : (!uo && (h.toList.headD 'x' == '#')) = true := by
      rw [huo]
      simpa using hhash
    unfold to_absolute_url
    rw [if_pos hcond]
  · rfl

/-- C6 (witness): the amended theorem applied to a concrete relative link,
resolved by a concrete resolver. -/
theorem c6_link_rewrite_witness :
    fix_non_absolute_link false (fun s => some ("https://e.test/" ++ s))
      (.elem "a" [("href", "page.html")] []) =
      setProp (.elem "a" [("href", "page.html")] []) "href"
        (to_absolute_url false (fun s => some ("https://e.test/" ++ s))
          "page.html") :=
  (c6_link_rewrite false (fun s => some ("https://e.test/" ++ s))
    [("href", "page.html")] [] "page.html" rfl).2.1 rfl

/-! ## C8: class stripping (`clean_classes`, `set_main_div_attrs`) -/

/-- `strtok(s, " ")`: split on spaces, skipping empty tokens. -/
def strtokSp : List Char → List Char → List (List Char)
  | [], acc => if acc.isEmpty then [] else [acc.reverse]
  | c :: rest, acc =>
    if c == ' ' then
      if acc.isEmpty then strtokSp rest []
      else acc.reverse :: strtokSp rest []
    else strtokSp rest (c :: acc)

/-- The `strtok` loop of `clean_classes`: some space-separated token of the
class list is exactly `page` (case-sensitive `strcmp`). -/
def hasPageToken (cl : String) : Bool :=
  (strtokSp cl.toList []).any (fun t => t == "page".toList)

/-- The class attribute of an attribute list (`xmlGetProp(node, "class")`). -/
def class_list (a : List (String × String)) : Option String :=
  (a.find? (fun p => p.1 == "class")).map (·.2)

/-- `clean_classes` restricted to the attribute list: if there is no class
attribute do nothing; if some token equals `page` set `class="page"`;
otherwise remove the class attribute. -/
def clean_class_attrs (a : List (String × String)) : List (String × String) :=
  match class_list a with
  | none => a
  | some cl =>
    if hasPageToken cl then setPropList a "class" "page"
    else a.filter (fun p => !(p.1 == "class"))

/-- `clean_classes` on one node (text and comment nodes have no
attributes, so `xmlGetProp` returns NULL and they are left alone). -/
def clean_classes (n : HNode) : HNode :=
  match n with
  | .elem t a cs => .elem t (clean_class_attrs a) cs
  | other => other

mutual

/-- `change_descendants(article, clean_classes)`: apply `clean_classes` at
every node of the tree (the traversal visits every descendant; applying it
to the root as well is harmless since the main div already satisfies the
page-class test). -/
def cleanClassesN : HNode → HNode
  | .elem t a cs => .elem t (clean_class_attrs a) (cleanClassesL cs)
  | .text s => .text s
  | .comm s => .comm s

def cleanClassesL : List HNode → List HNode
  | [] => []
  | c :: rest => cleanClassesN c :: cleanClassesL rest

end

/-- `set_main_div_attrs`: give the main div its id and class. -/
def set_main_div_attrs (div : HNode) : HNode :=
  setProp (setProp div "id" "readability-page-1") "class" "page"

/-- `create_main_div`: move all children of the article under a fresh
`<div id="readability-page-1" class="page">`. -/
def create_main_div (article : HNode) : HNode :=
  match article with
  | .elem t a cs => .elem t a [set_main_div_attrs (.elem "div" [] cs)]
  | other => other

mutual

/-- Number of elements in the tree whose class attribute is exactly `page`. -/
def countPageN : HNode → Nat
  | .elem _ a cs =>
    (if class_list a == some "page" then 1 else 0) + countPageL cs
  | _ => 0

def countPageL : List HNode → Nat
  | [] => 0
  | c :: rest => countPageN c + countPageL rest

end

mutual

/-- Every element of the tree either has no class attribute or has
`class="page"`. -/
def classCleanedN : HNode → Bool
  | .elem _ a cs =>
    (match class_list a with
     | none => true
     | some cl => cl == "page") && classCleanedL cs
  | _ => true

def classCleanedL : List HNode → Bool
  | [] => true
  | c :: rest => classCleanedN c && classCleanedL rest

end

/-- An article (already wrapped in its main div) one of whose descendants
carries a user class list containing the token `page`. -/
def c8Article : HNode :=
  .elem "div" [("id", "readability-page-1"), ("class", "page")]
    [.elem "p" [("class", "intro")] [.text "hello"],
     .elem "ul" [("class", "page list")] [.elem "li" [] [.text "item"]]]

theorem class_list_setProp (a : List (String × String)) (v : String) :
    class_list (setPropList a "class" v) = some v := by
  unfold setPropList
  split
  · rename_i h
    induction a with
    | nil => simp at h
    | cons p rest ih =>
      by_cases hp : (p.1 == "class") = true
      · simp [class_list, List.find?, hp]
      · simp only [List.any_cons, hp, Bool.false_or] at h
        simpa [class_list, List.find?, hp] using ih h
  · rename_i h
    induction a with
    | nil => simp [class_list, List.find?]
    | cons p rest ih =>
      simp only [List.any_cons, Bool.or_eq_true, not_or] at h
      have hp : (p.1 == "class") = false := by
        cases hpc : (p.1 == "class") <;> simp_all
      simp only [List.cons_append]
      simpa [class_list, List.find?, hp] using
        ih (by simpa using h.2)

theorem class_list_unset (a : List (String × String)) :
    class_list (a.filter (fun p => !(p.1 == "class"))) = none := by
  induction a with
  | nil => rfl
  | cons p rest ih =>
    by_cases hp : (p.1 == "class") = true
    · simpa [List.filter, hp] using ih
    · have hp' : (p.1 == "class") = false := by
        cases hpc : (p.1 == "class") <;> simp_all
      exact (by simpa [class_list, List.filter, hp'] using ih)

theorem clean_class_attrs_ok (a : List (String × String)) :
    (match class_list (clean_class_attrs a) with
     | none => true
     | some cl => cl == "page") = true := by
  cases h : class_list a with
  | none => simp only [clean_class_attrs, h]
  | some cl =>
    by_cases ht : hasPageToken cl = true
    · simp only [clean_class_attrs, h, ht, if_true, class_list_setProp,
        beq_self_eq_true]
    · simp only [clean_class_attrs, h, ht, if_false, Bool.false_eq_true,
        class_list_unset]

mutual

theorem cleanedN_ok : ∀ n, classCleanedN (cleanClassesN n) = true
  | .elem t a cs => by
    simp only [cleanClassesN, classCleanedN, Bool.and_eq_true]
    exact ⟨clean_class_attrs_ok a, cleanedL_ok cs⟩
  | .text s => rfl
  | .comm s => rfl

theorem cleanedL_ok : ∀ l, classCleanedL (cleanClassesL l) = true
  | [] => rfl
  | c :: rest => by
    simp only [cleanClassesL, classCleanedL, Bool.and_eq_true]
    exact ⟨cleanedN_ok c, cleanedL_ok rest⟩

end

/-- C8 (counterexample): after class cleanup, the article `c8Article` has TWO
elements whose class attribute is exactly `page` — the main div the engine
set itself and a `<ul class="page list">` the author wrote — because
`clean_classes` preserves `class="page"` on any element whose class tokens
contain `page`, not only on the engine's wrapper; in particular not every
other element has had its class attribute stripped. -/
theorem c8_counterexample :
    countPageN (cleanClassesN c8Article) = 2 ∧
    cleanClassesN c8Article =
      .elem "div" [("id", "readability-page-1"), ("class", "page")]
        [.elem "p" [] [.text "hello"],
         .elem "ul" [("class", "page")] [.elem "li" [] [.text "item"]]] := by
  constructor
  · rfl
  · rfl

/-- C8 (amended): after `change_descendants(article, clean_classes)` every
element of the article either has no class attribute or has exactly
`class="page"`; an element ends up with `class="page"` iff its original
class tokens contained `page` (so the engine-set wrapper keeps it, but so
does any author element with a `page` token); and the main div built by
`set_main_div_attrs` carries `id="readability-page-1"` and `class="page"`
and passes through the cleanup with only its children rewritten. -/
theorem c8_class_cleanup :
    (∀ n, classCleanedN (cleanClassesN n) = true) ∧
    (∀ a, class_list (clean_class_attrs a) = some "page" ↔
      ∃ cl, class_list a = some cl ∧ hasPageToken cl = true) ∧
    (∀ cs,
      getProp (set_main_div_attrs (.elem "div" [] cs)) "id" =
        some "readability-page-1" ∧
      getProp (set_main_div_attrs (.elem "div" [] cs)) "class" = some "page" ∧
      cleanClassesN (set_main_div_attrs (.elem "div" [] cs)) =
        .elem "div" [("id", "readability-page-1"), ("class", "page")]
          (cleanClassesL cs)) := by
  refine ⟨cleanedN_ok, ?_, ?_⟩
  · intro a
    cases h : class_list a with
    | none => simp [clean_class_attrs, h]
    | some cl =>
      by_cases ht : hasPageToken cl = true
      · simp only [clean_class_attrs, h, ht, if_true, class_list_setProp]
        constructor
        · intro hmm
          exact ⟨cl, rfl, ht⟩
        · intro hmm
          trivial
      · simp only [clean_class_attrs, h, ht, if_false, Bool.false_eq_true,
          class_list_unset]
        constructor
        · intro hfalse
          cases hfalse
        · rintro ⟨cl2, hcl2, ht2⟩
          have hcc : cl2 = cl := by
            first
            | exact (Option.some.inj hcl2).symm
            | exact (Option.some.inj (h.symm.trans hcl2)).symm
          rw [hcc] at ht2
          exact absurd ht2 ht
  · intro cs
    exact ⟨rfl, rfl, rfl⟩

/-! ## C10: static state across extraction calls (`check_byline`) -/

/-- The process-global state that `check_byline` reads and writes: the
file-scope `static bool found_byline` and the global `metadata.byline`.
Neither is ever reset between `parse()` calls. -/
structure BylineState where
  found_byline : Bool
  byline : Option String
deriving DecidableEq

/-- `check_byline` (readability.c): once `found_byline` is set, every later
call returns false immediately; otherwise the node is a byline when its
`rel` is `author`, its `itemprop` contains `author` (case-sensitive
`strstr`), or its class or id matches `BYLINE_RE`; a sane byline
(`0 < len < 100`) latches `found_byline` and records the byline text if
`metadata.byline` was still unset. -/
def check_byline (st : BylineState) (node : HNode) : Bool × BylineState :=
  if st.found_byline then (false, st)
  else
    let is_byline :=
      attrcmp node "rel" "author" ||
      (match getProp node "itemprop" with
       | some ip => containsSub ip "author"
       | none => false) ||
      matchesByline (getProp node "class") ||
      matchesByline (getProp node "id")
    if is_byline then
      let len := text_content_length node
      if 0 < len ∧ len < 100 then
        (true,
         { found_byline := true,
           byline :=
             match st.byline with
             | none => some (node_get_normalized_content node)
             | some b => some b })
      else (false, st)
    else (false, st)

/-- `is_node_unlikely` (readability.c); `has_ancestor_tag(node, "table")`
includes the node itself, and the tags of the strict ancestors are passed
explicitly. -/
def is_node_unlikely (ancTags : List String) (n : HNode) : Bool :=
  if attrcmp n "role" "complementary" then true
  else if node_has_tag n ["table"] || ancTags.contains "table" ||
      node_has_tag n ["body", "a"] then false
  else node_has_unlikely_class_id n

/-- `is_break_if_element` (readability.c). -/
def is_break_if_element (n : HNode) : Bool :=
  match n with
  | .elem _ _ _ => node_has_tag n ["br", "hr"]
  | _ => true

/-- `is_element_without_content` (readability.c): an element with zero text
content all of whose descendants are breaks (or non-elements). -/
def is_element_without_content (n : HNode) : Bool :=
  match n with
  | .elem t a cs =>
    if text_content_length (.elem t a cs) ≠ 0 then false
    else forallDescL is_break_if_element cs
  | _ => false

/-- `DIV_ELEMS` (readability.c). -/
def DIV_ELEMS : List String :=
  ["div", "section", "header", "h1", "h2", "h3", "h4", "h5", "h6"]

/-- `is_division_without_content` (readability.c). -/
def is_division_without_content (n : HNode) : Bool :=
  if !node_has_tag n DIV_ELEMS then false
  else is_element_without_content n

/-- `no_need_to_score` (readability.c): invisible nodes, bylines, unlikely
nodes (under `OPT_STRIP_UNLIKELY`) and empty divisions are not scored; the
byline check threads the static state. -/
def no_need_to_score (stripUnlikely : Bool) (ancTags : List String)
    (st : BylineState) (n : HNode) : Bool × BylineState :=
  if !is_node_visible n then (true, st)
  else
    let r := check_byline st n
    if r.1 then (true, r.2)
    else if stripUnlikely && is_node_unlikely ancTags n then (true, r.2)
    else (is_division_without_content n, r.2)

/-- A byline paragraph, as it would appear in two successive documents fed
to the same process. -/
def c10Byline : HNode :=
  .elem "p" [("class", "byline")] [.text "John Doe"]

theorem check_byline_latched (st : BylineState) (n : HNode)
    (h : st.found_byline = true) : check_byline st n = (false, st) := by
  simp [check_byline, h]

/-- C10 (counterexample): extraction is NOT a function of document and
configuration alone.  On a fresh process the byline paragraph is detected
(`no_need_to_score` = true, so it is dropped from the article and recorded
as the byline); on a second run over an identical document with the same
configuration the static `found_byline` latch is still set, `check_byline`
refuses, and the very same node is kept — the two runs return different
articles. -/
theorem c10_counterexample :
    (no_need_to_score true [] ⟨false, none⟩ c10Byline).1 = true ∧
    (no_need_to_score true []
        (no_need_to_score true [] ⟨false, none⟩ c10Byline).2 c10Byline).1 =
      false ∧
    (no_need_to_score true [] ⟨false, none⟩ c10Byline).2.byline =
      some "John Doe" := by
  refine ⟨rfl, rfl, ?_⟩
  rfl

/-- C10 (amended): `check_byline` is deterministic in (static state, node),
but the static state is carried across calls and is never reset: once
`found_byline` is set every later call — in the same or any later
extraction — returns false and leaves the state untouched, a successful
detection latches the flag, a previously recorded `metadata.byline` is
never overwritten, and `no_need_to_score` on a latched state can never
again report (or re-record) a byline. -/
theorem c10_static_latch :
    (∀ st n, st.found_byline = true → check_byline st n = (false, st)) ∧
    (∀ st n, (check_byline st n).1 = true →
      ((check_byline st n).2).found_byline = true) ∧
    (∀ st n b, st.byline = some b → ((check_byline st n).2).byline = some b) ∧
    (∀ su anc st n, st.found_byline = true →
      ((no_need_to_score su anc st n).2 = st ∧
        (check_byline st n).1 = false)) := by
  refine ⟨fun st n h => check_byline_latched st n h, ?_, ?_, ?_⟩
  · intro st n h2
    simp only [check_byline] at h2 ⊢
    split_ifs at h2 ⊢ <;> simp_all
  · intro st n b h
    simp only [check_byline]
    split_ifs <;> simp_all
  · intro su anc st n h
    have hc := check_byline_latched st n h
    constructor
    · unfold no_need_to_score
      rw [hc]
      split_ifs <;> rfl
    · rw [hc]

/-! ## C5: conditional cleaning (`node_looks_fishy`, prep_article.c) -/

/-- `content_char_count` (prep_article.c): occurrences of a character in the
RAW `xmlNodeGetContent` text (no normalization). -/
def content_char_count (n : HNode) (c : Char) : Nat :=
  char_count (contentOf n) c

mutual

/-- `count_such_descs` over a sibling list's subtrees. -/
def countDescL (p : HNode → Bool) : List HNode → Nat
  | [] => 0
  | c :: cs => countDescN p c + countDescL p cs

/-- One subtree's contribution to `count_such_descs` (the node included). -/
def countDescN (p : HNode → Bool) : HNode → Nat
  | .elem t a cs => (if p (.elem t a cs) then 1 else 0) + countDescL p cs
  | n => if p n then 1 else 0

end

/-- `tag_count` (prep_article.c): descendants (the node excluded) with the
given tag. -/
def tag_count (n : HNode) (tag : String) : Nat :=
  countDescL (fun m => node_has_tag m [tag]) (childrenOf n)

/-- `is_embed` (prep_article.c). -/
def is_embed (n : HNode) : Bool :=
  node_has_tag n ["object", "embed", "iframe"]

mutual

/-- `htmlNodeDump` (libxml2, modelled): serialize the subtree back to HTML.
Entity escaping and formatting details are omitted; the dump is only ever
searched for `VIDEOS_RE` host substrings. -/
def dumpN : HNode → String
  | .elem t a cs =>
    "<" ++ t ++
      ((a.map (fun p => " " ++ p.1 ++ "=" ++ "\"" ++ p.2 ++ "\"")).foldl
        (· ++ ·) "") ++ ">" ++ dumpL cs ++ "</" ++ t ++ ">"
  | .text str => str
  | .comm str => "<!--" ++ str ++ "-->"

/-- `htmlNodeDump` over a child list. -/
def dumpL : List HNode → String
  | [] => ""
  | c :: cs => dumpN c ++ dumpL cs

end

/-- `is_embed_with_video` (prep_article.c): an embed one of whose attribute
values matches `VIDEOS_RE`; for `<object>` the serialized inner HTML is
searched as well. -/
def is_embed_with_video (n : HNode) : Bool :=
  if !is_embed n then false
  else
    let attrVid :=
      match n with
      | .elem _ a _ => a.any (fun p => matchesVideos (some p.2))
      | _ => false
    if attrVid then true
    else if !node_has_tag n ["object"] then false
    else matchesVideos (some (dumpN n))

/-- `check_embeds_for_removal` (prep_article.c): fail if any descendant is an
embed with a video, otherwise return the number of embed descendants. -/
def check_embeds_for_removal (n : HNode) : Option Nat :=
  if !(forallDescL (fun m => !(is_embed_with_video m)) (childrenOf n)) then none
  else some (countDescL is_embed (childrenOf n))

/-- `node_looks_fishy` (prep_article.c).  The ancestor-dependent inputs are
passed explicitly: `insideDataTable` is `inside_data_table(node)` and
`ancFigure` tells whether a strict ancestor is a `<figure>`
(`has_ancestor_tag` also checks the node itself, which is done here).
`weightClasses` is the `OPT_WEIGHT_CLASSES` flag read by
`get_class_weight`.  C doubles are modelled as ℚ. -/
def node_looks_fishy (weightClasses insideDataTable ancFigure : Bool)
    (n : HNode) : Bool :=
  if insideDataTable then false
  else
    let weight := get_class_weight weightClasses n
    if weight < 0 then true
    else if 10 ≤ content_char_count n ',' then false
    else
      let p_count := tag_count n "p"
      let img_count := tag_count n "img"
      let li_count : Int := (tag_count n "li" : Int) - 100
      let input_count := tag_count n "input"
      if check_embeds_for_removal n = none then false
      else
        let embed_count := countDescL is_embed (childrenOf n)
        let link_density := get_link_density n
        let content_length := text_normalized_content_length n
        let is_list := node_has_tag n ["ul", "ol"]
        let hasFigure := node_has_tag n ["figure"] || ancFigure
        if hasFigure = false ∧ 1 < img_count ∧
            (p_count : ℚ) < (img_count : ℚ) / 2 then true
        else if hasFigure = false ∧ is_list = false ∧ content_length < 25 ∧
            (img_count = 0 ∨ 2 < img_count) then true
        else if is_list = false ∧ (p_count : Int) < li_count then true
        else if p_count / 3 < input_count then true
        else if is_list = false ∧ weight < 25 ∧
            (1 : ℚ) / 5 < link_density then true
        else if 25 ≤ weight ∧ (1 : ℚ) / 2 < link_density then true
        else if (embed_count = 1 ∧ content_length < 75) ∨
            1 < embed_count then true
        else false

/-- The removal condition of `clean_conditionally` as the amended claim
words it, one flat disjunction of fully-guarded signs. -/
def FishyC5 (weightClasses insideDataTable ancFigure : Bool)
    (n : HNode) : Prop :=
  insideDataTable = false ∧
  (get_class_weight weightClasses n < 0 ∨
    (content_char_count n ',' ≤ 9 ∧
     ¬(check_embeds_for_removal n = none) ∧
     (((node_has_tag n ["figure"] || ancFigure) = false ∧
        1 < tag_count n "img" ∧
        (tag_count n "p" : ℚ) < (tag_count n "img" : ℚ) / 2) ∨
      ((node_has_tag n ["figure"] || ancFigure) = false ∧
        node_has_tag n ["ul", "ol"] = false ∧
        text_normalized_content_length n < 25 ∧
        (tag_count n "img" = 0 ∨ 2 < tag_count n "img")) ∨
      (node_has_tag n ["ul", "ol"] = false ∧
        (tag_count n "p" : Int) < (tag_count n "li" : Int) - 100) ∨
      (tag_count n "p" / 3 < tag_count n "input") ∨
      (node_has_tag n ["ul", "ol"] = false ∧
        get_class_weight weightClasses n < 25 ∧
        (1 : ℚ) / 5 < get_link_density n) ∨
      (25 ≤ get_class_weight weightClasses n ∧
        (1 : ℚ) / 2 < get_link_density n) ∨
      ((countDescL is_embed (childrenOf n) = 1 ∧
          text_normalized_content_length n < 75) ∨
        1 < countDescL is_embed (childrenOf n)))))


theorem ite_true_or {s : Prop} [Decidable s] {r : Bool} :
    (if s then true else r) = true ↔ s ∨ r = true := by
  by_cases h : s <;> simp [h]

theorem ite_false_gate {c : Prop} [Decidable c] {r : Bool} :
    (if c then false else r) = true ↔ ¬c ∧ r = true := by
  by_cases h : c <;> simp [h]

/-- A short list: no commas, text of length 5, no images, weight 0. -/
def c5List : HNode :=
  .elem "ul" [] [.elem "li" [] [.text "a b c"]]

/-- C5 (counterexample): the claim's second cited sign — content length
below 25 with an image count outside {1, 2} — holds for this `<ul>` (5
characters of text, no images, no commas, weight 0, not inside a data
table), so by the claim it would be removed; but in the code that sign is
guarded by `!is_list` (and by the `<figure>` check), so `node_looks_fishy`
is false and the list is kept. -/
theorem c5_counterexample :
    node_looks_fishy true false false c5List = false ∧
    text_normalized_content_length c5List < 25 ∧
    tag_count c5List "img" = 0 ∧
    content_char_count c5List ',' ≤ 9 ∧
    node_has_tag c5List ["ul", "ol"] = true := by
  refine ⟨?_, by decide, by decide, by decide, by decide⟩
  decide

/-- C5 (amended): a descendant with the cleaned tag is removed iff it is
not inside a data table and either its class weight is negative, or it has
at most 9 commas, no descendant embed carries a video, and one of the
fully-guarded fishy signs holds: outside `<figure>` with img_count > 1 and
p_count < img_count/2; outside `<figure>`, not a list, content length < 25
and img_count outside 1..2; not a list and li_count − 100 > p_count; input
count above a third of the paragraph count; link density above 0.2 with
weight below 25 (non-lists) or above 0.5 with weight at least 25; or a
lone embed with short content, or several embeds. -/
theorem c5_fishy_exact (weightClasses insideDataTable ancFigure : Bool)
    (n : HNode) :
    node_looks_fishy weightClasses insideDataTable ancFigure n = true ↔
      FishyC5 weightClasses insideDataTable ancFigure n := by
  cases insideDataTable with
  | true => simp [node_looks_fishy, FishyC5]
  | false =>
    simp only [node_looks_fishy]
    rw [ite_false_gate, ite_true_or, ite_false_gate, ite_false_gate,
      ite_true_or, ite_true_or, ite_true_or, ite_true_or, ite_true_or,
      ite_true_or, ite_true_or]
    simp only [Bool.false_eq_true, or_false, not_false_iff, true_and,
      eq_self_iff_true, FishyC5]
    constructor
    · rintro (hw | ⟨hc, he, hs⟩)
      · exact Or.inl hw
      · exact Or.inr ⟨by omega, he, hs⟩
    · rintro (hw | ⟨hc, he, hs⟩)
      · exact Or.inl hw
      · exact Or.inr ⟨by omega, he, hs⟩

/-! ## C9: the readerable quick check (readerable.c) -/

/-- Tag of an element (empty for text and comment nodes). -/
def tagOf : HNode → String
  | .elem t _ _ => t
  | _ => ""

/-- The argument of the square root in `node_score` (readerable.c):
invisible nodes, unlikely-class nodes and paragraphs inside list items
score 0, as does any node whose raw text is shorter than 140 bytes;
otherwise the score is `sqrt (length - 140)`, so the value recorded here
is `length - 140` (`sqrt 0 = 0` keeps the zero cases uniform).  `ancTags`
holds the tags of the strict ancestors; `has_ancestor_tag(node, "li")`
also checks the node itself. -/
def node_score_arg (ancTags : List String) (n : HNode) : Nat :=
  if !is_node_visible n then 0
  else if node_has_unlikely_class_id n then 0
  else if node_has_tag n ["p"] &&
      (node_has_tag n ["li"] || ancTags.contains "li") then 0
  else
    let length := text_content_length n
    if length < 140 then 0 else length - 140

mutual

/-- The `is_probably_readerable` traversal under one node: walk its
children with the node as parent. -/
def rdblWalkN (anc : List String) : HNode → List Nat
  | .elem t a cs => rdblWalkL (.elem t a cs) anc cs
  | _ => []

/-- The `is_probably_readerable` traversal over a sibling list:
`<p>`/`<pre>` nodes contribute their `node_score` and are descended into;
a `<br>` whose parent is a `<div>` contributes the parent's score and the
parent's remaining descendants are skipped (`skip_node_descendants`);
every other node is just descended into.  Each element of the result is a
`node_score` square-root argument.  `panc` are the parent's strict
ancestor tags. -/
def rdblWalkL (parent : HNode) (panc : List String) : List HNode → List Nat
  | [] => []
  | c :: rest =>
    match c with
    | .elem t a cs =>
      if t = "p" ∨ t = "pre" then
        node_score_arg (tagOf parent :: panc) (.elem t a cs) ::
          (rdblWalkN (tagOf parent :: panc) (.elem t a cs) ++
            rdblWalkL parent panc rest)
      else if t = "br" ∧ node_has_tag parent ["div"] = true then
        [node_score_arg panc parent]
      else
        rdblWalkN (tagOf parent :: panc) (.elem t a cs) ++
          rdblWalkL parent panc rest
    | _ => rdblWalkL parent panc rest

end

/-- Score contributions over the whole document: `first_node(doc)` starts
at the root element, whose parent is the document node, never a `<div>`. -/
def readerableContribs (d : HNode) : List Nat :=
  rdblWalkL (.elem "#document" [] [d]) [] [d]

/-- `is_probably_readerable` (readerable.c): the document is readerable
when the summed scores pass 20.  The C loop returns early as soon as the
partial sum does; as every term is non-negative this is equivalent to
testing the total.  C doubles and `sqrt` are modelled over ℝ. -/
def is_probably_readerable (d : HNode) : Prop :=
  20 < ((readerableContribs d).map (fun v : Nat => Real.sqrt (v : ℝ))).sum

/-- A node with a `p`, `pre` or `br` tag. -/
def pbrTag (m : HNode) : Bool :=
  node_has_tag m ["p", "pre", "br"]

theorem rdbl_sum_nonneg (l : List Nat) :
    0 ≤ (l.map (fun v : Nat => Real.sqrt (v : ℝ))).sum := by
  apply List.sum_nonneg
  intro x hx
  simp only [List.mem_map] at hx
  obtain ⟨v, _, rfl⟩ := hx
  exact Real.sqrt_nonneg _

theorem rdblWalkL_parent (p1 p2 : HNode) (panc : List String)
    (hd1 : node_has_tag p1 ["div"] = false)
    (hd2 : node_has_tag p2 ["div"] = false)
    (ht : tagOf p1 = tagOf p2) :
    ∀ l, rdblWalkL p1 panc l = rdblWalkL p2 panc l := by
  intro l
  induction l with
  | nil => rfl
  | cons c rest ih =>
    cases c with
    | elem t a k =>
      simp only [rdblWalkL, hd1, hd2, ht, Bool.false_eq_true, and_false,
        if_false, ih]
    | text str => simpa only [rdblWalkL] using ih
    | comm str => simpa only [rdblWalkL] using ih

theorem rdblWalkL_append (parent : HNode) (panc : List String)
    (hdv : node_has_tag parent ["div"] = false) (cs ds : List HNode) :
    rdblWalkL parent panc (cs ++ ds) =
      rdblWalkL parent panc cs ++ rdblWalkL parent panc ds := by
  induction cs with
  | nil => rfl
  | cons c rest ih =>
    cases c with
    | elem t a k =>
      simp only [List.cons_append, rdblWalkL, hdv, Bool.false_eq_true,
        and_false, if_false]
      by_cases hp : t = "p" ∨ t = "pre"
      · simp [hp, ih, List.append_assoc]
      · simp [hp, ih, List.append_assoc]
    | text str =>
      simpa only [List.cons_append, rdblWalkL] using ih
    | comm str =>
      simpa only [List.cons_append, rdblWalkL] using ih

mutual

theorem rdblWalkN_nil : ∀ n, existsNodeN pbrTag n = false →
    ∀ anc, rdblWalkN anc n = []
  | .elem t a cs, h, anc => by
    have h2 : existsNodeL pbrTag cs = false := by
      revert h
      simp [existsNodeN]
    simp only [rdblWalkN]
    exact rdblWalkL_nil cs h2 (.elem t a cs) anc
  | .text str, _, _ => rfl
  | .comm str, _, _ => rfl

theorem rdblWalkL_nil : ∀ l, existsNodeL pbrTag l = false →
    ∀ parent panc, rdblWalkL parent panc l = []
  | [], _, _, _ => rfl
  | c :: rest, h, parent, panc => by
    have hc : existsNodeN pbrTag c = false := by
      revert h
      simp [existsNodeL]
      try tauto
    have hr : existsNodeL pbrTag rest = false := by
      revert h
      simp [existsNodeL]
      try tauto
    cases c with
    | elem t a k =>
      have ht : pbrTag (.elem t a k) = false := by
        revert hc
        simp [existsNodeN]
        try tauto
      have hnp : ¬(t = "p" ∨ t = "pre") := by
        intro hcon
        rcases hcon with h1 | h1 <;> subst h1 <;> revert ht <;>
          simp [pbrTag, node_has_tag]
      have hnbr : ¬(t = "br" ∧ node_has_tag parent ["div"] = true) := by
        rintro ⟨h1, _⟩
        subst h1
        revert ht
        simp [pbrTag, node_has_tag]
      simp only [rdblWalkL, hnp, hnbr, if_false]
      rw [rdblWalkN_nil (.elem t a k) hc (tagOf parent :: panc),
        rdblWalkL_nil rest hr parent panc]
      rfl
    | text str =>
      simp only [rdblWalkL]
      exact rdblWalkL_nil rest hr parent panc
    | comm str =>
      simp only [rdblWalkL]
      exact rdblWalkL_nil rest hr parent panc

end

theorem rdbl_outer (a : List (String × String)) (cs : List HNode) :
    readerableContribs (.elem "html" a cs) =
      rdblWalkL (.elem "html" a cs) ["#document"] cs := by
  have hbr : ¬(("html" : String) = "br" ∧
      node_has_tag (.elem "#document" [] [.elem "html" a cs]) ["div"] =
        true) := by
    rintro ⟨h1, _⟩
    exact absurd h1 (by decide)
  unfold readerableContribs
  simp only [rdblWalkL]
  rw [if_neg (by decide : ¬(("html" : String) = "p" ∨
    ("html" : String) = "pre")), if_neg hbr]
  simp [rdblWalkN, tagOf]

set_option maxRecDepth 100000

/-- A 600-letter div that ends in a `<br>`: no `<p>` or `<pre>`
anywhere. -/
def c9Doc : HNode :=
  .elem "html" []
    [.elem "body" []
      [.elem "div" []
        [.text (String.mk (List.replicate 600 'a')), .elem "br" [] []]]]

/-- A paragraph of 200 letters. -/
def c9P200 : HNode :=
  .elem "p" [] [.text (String.mk (List.replicate 200 'a'))]

/-- C9 (counterexample): `c9Doc` has no `<p>` or `<pre>` at all, so
removing them all is the identity; yet the div-with-`<br>` branch scores
the 600-letter div at `sqrt 460 > 20` and the quick check answers true —
refuting the claim that a document without `<p>`/`<pre>` is never
readerable. -/
theorem c9_counterexample :
    is_probably_readerable c9Doc ∧
    remove_nodes_if (fun m => node_has_tag m ["p", "pre"]) c9Doc = c9Doc ∧
    existsNodeN (fun m => node_has_tag m ["p", "pre"]) c9Doc = false := by
  refine ⟨?_, rfl, rfl⟩
  have hc : readerableContribs c9Doc = [460] := rfl
  unfold is_probably_readerable
  rw [hc]
  simp only [List.map_cons, List.map_nil, List.sum_cons, List.sum_nil,
    add_zero]
  rw [show ((460 : Nat) : ℝ) = 460 by norm_num]
  rw [show (20 : ℝ) = Real.sqrt 400 by
    rw [show (400 : ℝ) = 20 ^ 2 by norm_num,
      Real.sqrt_sq (by norm_num : (0 : ℝ) ≤ 20)]]
  exact Real.sqrt_lt_sqrt (by norm_num) (by norm_num)

/-- C9 (amended): the quick check is monotone under appending a
200-letter paragraph to the root: a readerable html document stays
readerable.  But it is the `<p>`, `<pre>` AND div-with-`<br>` nodes that
carry the score: only a document with none of the three is guaranteed
unreaderable; stripping `<p>`/`<pre>` alone is not enough (c9Doc). -/
theorem c9_readerable :
    (∀ a cs, is_probably_readerable (.elem "html" a cs) →
      is_probably_readerable (.elem "html" a (cs ++ [c9P200]))) ∧
    (∀ d, existsNodeN pbrTag d = false → ¬ is_probably_readerable d) := by
  constructor
  · intro a cs hd
    unfold is_probably_readerable at hd ⊢
    rw [rdbl_outer a cs] at hd
    rw [rdbl_outer a (cs ++ [c9P200])]
    rw [rdblWalkL_parent (.elem "html" a (cs ++ [c9P200]))
      (.elem "html" a cs) ["#document"] rfl rfl rfl (cs ++ [c9P200])]
    rw [rdblWalkL_append (.elem "html" a cs) ["#document"] rfl cs [c9P200]]
    rw [List.map_append, List.sum_append]
    have h2 := rdbl_sum_nonneg
      (rdblWalkL (.elem "html" a cs) ["#document"] [c9P200])
    linarith
  · intro d hq
    unfold is_probably_readerable
    have h0 : readerableContribs d = [] := by
      unfold readerableContribs
      exact rdblWalkL_nil [d] (by simp [existsNodeL, hq]) _ _
    rw [h0]
    norm_num

end Rdrview
